import Mathlib

/-!
Verification development for the PSUR schedule store
(src/backend/db_store.py and the bulk-update tool handlers of
src/backend/server.py), shallowly embedded in Lean.

Dates are modelled as proleptic-Gregorian calendar dates with explicit
day-number arithmetic (the civil-calendar algorithm), matching Python's
datetime.date ordering and timedelta addition on the 1..9999 year range.
All definitions are computable so that concrete stores can be evaluated
by the kernel.
-/

namespace PSURStore

/-! ## Calendar dates -/

def isLeap (y : Int) : Bool := y % 4 == 0 && (y % 100 != 0 || y % 400 == 0)

def daysInMonth (y : Int) (m : Nat) : Nat :=
  if m = 2 then (if isLeap y then 29 else 28)
  else if m = 4 || m = 6 || m = 9 || m = 11 then 30
  else 31

structure Date where
  year : Int
  month : Nat
  day : Nat
deriving DecidableEq, Repr

/-- Day number of a civil date (days since 0000-03-01), the standard
civil-from-days bijection; strictly monotone in chronological order on
valid dates, so it also models Python's date comparison. -/
def Date.toDays (d : Date) : Int :=
  let y : Int := if d.month ≤ 2 then d.year - 1 else d.year
  let mp : Int := if 2 < d.month then (d.month : Int) - 3 else (d.month : Int) + 9
  let doy : Int := (153 * mp + 2) / 5 + ((d.day : Int) - 1)
  365 * y + y.ediv 4 - y.ediv 100 + y.ediv 400 + doy

/-- Inverse of Date.toDays on the valid range. -/
def Date.ofDays (z : Int) : Date :=
  let era : Int := z.ediv 146097
  let doe : Nat := (z - 146097 * era).toNat
  let yoe : Nat := (doe - doe / 1460 + doe / 36524 - doe / 146096) / 365
  let doy : Nat := doe - (365 * yoe + yoe / 4 - yoe / 100)
  let mp : Nat := (5 * doy + 2) / 153
  let day : Nat := doy - (153 * mp + 2) / 5 + 1
  let month : Nat := if mp < 10 then mp + 3 else mp - 9
  ⟨era * 400 + (yoe : Int) + (if month ≤ 2 then 1 else 0), month, day⟩

/-- Python's `d + timedelta(days = n)`. -/
def addDays (d : Date) (n : Int) : Date := Date.ofDays (d.toDays + n)

/-- Python's `datetime.date.max`, used by the sort key for absent due dates. -/
def dateMax : Date := ⟨9999, 12, 31⟩

def dateLtB (a b : Date) : Bool := a.toDays < b.toDays

def dateLeB (a b : Date) : Bool := a.toDays ≤ b.toDays

/-! ## Character and string helpers (kernel-computable) -/

def isDigitB (c : Char) : Bool := 48 ≤ c.toNat && c.toNat ≤ 57

def natOfDigits (l : List Char) : Nat :=
  l.foldl (fun n c => n * 10 + (c.toNat - 48)) 0

def isSpaceB (c : Char) : Bool :=
  c = ' ' || c = '\t' || c = '\n' || c = '\r' || c = '\x0b' || c = '\x0c'

/-- Python's str.strip(). -/
def trimChars (l : List Char) : List Char :=
  ((l.dropWhile isSpaceB).reverse.dropWhile isSpaceB).reverse

def splitOnChar (sep : Char) : List Char → List (List Char)
  | [] => [[]]
  | c :: rest =>
    let r := splitOnChar sep rest
    if c = sep then [] :: r
    else
      match r with
      | [] => [[c]]
      | h :: t => (c :: h) :: t

/-- ASCII lower-casing, as applied by SQLite's LIKE and (on the ASCII
range relevant here) Python's str.lower(). -/
def lowerChars (l : List Char) : List Char := l.map Char.toLower

def isPrefixB : List Char → List Char → Bool
  | [], _ => true
  | _ :: _, [] => false
  | a :: as, b :: bs => a == b && isPrefixB as bs

/-- Contiguous-substring test (Python's `in` on strings). -/
def isInfixB (needle : List Char) : List Char → Bool
  | [] => needle.isEmpty
  | c :: t => isPrefixB needle (c :: t) || isInfixB needle t

/-- Byte-lexicographic strict order on strings (SQLite BINARY collation,
Python's str comparison on the ASCII range). -/
def strLtB : List Char → List Char → Bool
  | [], [] => false
  | [], _ :: _ => true
  | _ :: _, [] => false
  | a :: as, b :: bs =>
    if a.toNat < b.toNat then true
    else if b.toNat < a.toNat then false
    else strLtB as bs

def strLeB (a b : String) : Bool := !(strLtB b.data a.data)

/-! ## Date parsing and formatting -/

def validYMD (y m d : Nat) : Bool :=
  1 ≤ y && y ≤ 9999 && 1 ≤ m && m ≤ 12 && 1 ≤ d && d ≤ daysInMonth (Int.ofNat y) m

/-- One strptime attempt: %Y is exactly four digits, %m and %d one or two
digits, and the assembled date must be a valid calendar date. -/
def parseDateParts (ys ms ds : List Char) : Option Date :=
  if ys.length = 4 && ys.all isDigitB
      && (ms.length = 1 || ms.length = 2) && ms.all isDigitB
      && (ds.length = 1 || ds.length = 2) && ds.all isDigitB then
    let y := natOfDigits ys
    let m := natOfDigits ms
    let d := natOfDigits ds
    if validYMD y m d then some ⟨Int.ofNat y, m, d⟩ else none
  else none

def tryDashYMD (t : List Char) : Option Date :=
  match splitOnChar '-' t with
  | [y, m, d] => parseDateParts y m d
  | _ => none

def trySlashMDY (t : List Char) : Option Date :=
  match splitOnChar '/' t with
  | [m, d, y] => parseDateParts y m d
  | _ => none

def trySlashYMD (t : List Char) : Option Date :=
  match splitOnChar '/' t with
  | [y, m, d] => parseDateParts y m d
  | _ => none

/-- Source `_parse_date`: strips the text, tries the formats
"%Y-%m-%d", "%m/%d/%Y", "%Y/%m/%d" in order, and returns none when all
fail instead of raising.  The trailing datetime.fromisoformat fallback of
the source is modelled for date-only strings, which the first format
already accepts; datetime-with-time strings are outside this model. -/
def parse_date (s : String) : Option Date :=
  let t := trimChars s.data
  if t.isEmpty then none
  else
    match tryDashYMD t with
    | some d => some d
    | none =>
      match trySlashMDY t with
      | some d => some d
      | none => trySlashYMD t

def digitChar (n : Nat) : Char := Char.ofNat (48 + n % 10)

def natDigitsFuel : Nat → Nat → List Char
  | 0, _ => []
  | fuel + 1, n => if n = 0 then [] else natDigitsFuel fuel (n / 10) ++ [digitChar n]

def natDigits (n : Nat) : List Char :=
  if n = 0 then ['0'] else natDigitsFuel (n + 1) n

def padZeros (w : Nat) (l : List Char) : List Char :=
  List.replicate (w - l.length) '0' ++ l

/-- Source `_format_date`: ISO format for a date, empty string for none. -/
def format_date : Option Date → String
  | none => ""
  | some d =>
    ⟨padZeros 4 (natDigits d.year.toNat) ++ '-' ::
      (padZeros 2 (natDigits d.month) ++ '-' :: padZeros 2 (natDigits d.day))⟩

def DUE_OFFSET_DAYS : Int := 30

/-- Source `_compute_due`: parse the period end and add the fixed offset. -/
def compute_due (end_period : String) : Option Date :=
  match parse_date end_period with
  | none => none
  | some e => some (addDays e DUE_OFFSET_DAYS)

/-! ## Data model

One `Row` per table row of `psur_reports`.  NULL and the empty string are
identified (every consumer in the source coalesces them with
`value or ""` / falsiness checks).  `class` is a Lean keyword, hence
`class_`. -/

structure Row where
  id : Nat
  td_number : String
  psur_number : String
  type : String
  product_name : String
  catalog_number : String
  writer : String
  email : String
  start_period : String
  end_period : String
  frequency : String
  due_date : String
  status : String
  canada_needed : String
  canada_status : String
  comments : String
  class_ : String
  created_at : String
  updated_at : String
  version : Nat
deriving DecidableEq, Repr

/-- Column names accepted by the update paths (dict keys resolve to table
columns; a key outside the schema is not expressible). -/
inductive Field
  | id | td_number | psur_number | type | product_name | catalog_number
  | writer | email | start_period | end_period | frequency | due_date
  | status | canada_needed | canada_status | comments | class_
  | created_at | updated_at | version
deriving DecidableEq, Repr

/-- The keys `update_record` silently drops before building its SQL. -/
def immutableField : Field → Bool
  | .id => true
  | .created_at => true
  | .updated_at => true
  | .version => true
  | .td_number => true
  | _ => false

/-- `SET column = value` for one mutable column.  The immutable columns
are filtered out before this is ever applied, so they are mapped to the
identity. -/
def Row.setField (r : Row) : Field → String → Row
  | .psur_number, v => { r with psur_number := v }
  | .type, v => { r with type := v }
  | .product_name, v => { r with product_name := v }
  | .catalog_number, v => { r with catalog_number := v }
  | .writer, v => { r with writer := v }
  | .email, v => { r with email := v }
  | .start_period, v => { r with start_period := v }
  | .end_period, v => { r with end_period := v }
  | .frequency, v => { r with frequency := v }
  | .due_date, v => { r with due_date := v }
  | .status, v => { r with status := v }
  | .canada_needed, v => { r with canada_needed := v }
  | .canada_status, v => { r with canada_status := v }
  | .comments, v => { r with comments := v }
  | .class_, v => { r with class_ := v }
  | _, _ => r

/-- Read one column as text (`version` and `id` rendered as digits). -/
def Row.getField (r : Row) : Field → String
  | .id => ⟨natDigits r.id⟩
  | .td_number => r.td_number
  | .psur_number => r.psur_number
  | .type => r.type
  | .product_name => r.product_name
  | .catalog_number => r.catalog_number
  | .writer => r.writer
  | .email => r.email
  | .start_period => r.start_period
  | .end_period => r.end_period
  | .frequency => r.frequency
  | .due_date => r.due_date
  | .status => r.status
  | .canada_needed => r.canada_needed
  | .canada_status => r.canada_status
  | .comments => r.comments
  | .class_ => r.class_
  | .created_at => r.created_at
  | .updated_at => r.updated_at
  | .version => ⟨natDigits r.version⟩

def applyUpdates (r : Row) (us : List (Field × String)) : Row :=
  us.foldl (fun r fv => r.setField fv.1 fv.2) r

/-- The database: rows in insertion (rowid) order plus the AUTOINCREMENT
counter. -/
structure DB where
  rows : List Row
  nextId : Nat
deriving DecidableEq, Repr

/-- The payload accepted by `add_record` (the inserted columns; absent
dict entries are the empty string). -/
structure NewRecord where
  td_number : String
  psur_number : String
  type : String
  product_name : String
  catalog_number : String
  writer : String
  email : String
  start_period : String
  end_period : String
  frequency : String
  due_date : String
  status : String
  canada_needed : String
  canada_status : String
  comments : String
  class_ : String
deriving DecidableEq, Repr

/-! ## Row post-processing -/

/-- `ScheduleRecord.ensure_due`: the returned dict always carries the
freshly derived due date. -/
def ensure_due (r : Row) : Row :=
  { r with due_date := format_date (compute_due r.end_period) }

/-- The SET clause of `_write_due` on one matching row. -/
def healBump (due now : String) (r : Row) : Row :=
  { r with due_date := due, updated_at := now, version := r.version + 1 }

/-- One row as rewritten by the `_write_due` UPDATE statement. -/
def healUpd (td due now : String) (r : Row) : Row :=
  if r.td_number = td then healBump due now r else r

/-- `_write_due`: the corrective write is keyed by td_number, so it hits
every row sharing the identifier. -/
def write_due (db : DB) (td due_iso now : String) : DB :=
  { db with rows := db.rows.map (healUpd td due_iso now) }

/-- The persisting half of `_row_to_record`: fire `_write_due` when the
stored due date (of the fetched row) disagrees with the derived value
and the derived value is non-empty (truthy). -/
def healFromRow (db : DB) (now : String) (r : Row) : DB :=
  if format_date (compute_due r.end_period) ≠ "" ∧
      r.due_date ≠ format_date (compute_due r.end_period) then
    write_due db r.td_number (format_date (compute_due r.end_period)) now
  else db

def healAll (db : DB) (now : String) (snapshot : List Row) : DB :=
  snapshot.foldl (fun db r => healFromRow db now r) db

/-! ## Orders used by SQL and by filter_records -/

def tdLe (a b : Row) : Prop := strLeB a.td_number b.td_number = true

instance : DecidableRel tdLe := fun a b =>
  inferInstanceAs (Decidable (strLeB a.td_number b.td_number = true))

/-- Sort key of `filter_records`: the parsed due date (absent mapped to
`date.max`) as a day number. -/
def dueKey (r : Row) : Int :=
  ((parse_date r.due_date).getD dateMax).toDays

def recLeB (a b : Row) : Bool :=
  dueKey a < dueKey b || (dueKey a == dueKey b && strLeB a.td_number b.td_number)

def recLe (a b : Row) : Prop := recLeB a b = true

instance : DecidableRel recLe := fun a b =>
  inferInstanceAs (Decidable (recLeB a b = true))

/-! ## CRUD operations

Each operation returns its result together with the successor database;
the wall-clock values the source draws from `datetime.now()` are explicit
parameters. -/

/-- `get_all`: select all rows ordered by td_number, return the derived
records, and (when persisting) self-heal each fetched row in order. -/
def get_all (db : DB) (now : String) (persist : Bool) : List Row × DB :=
  let snapshot := List.insertionSort tdLe db.rows
  (snapshot.map ensure_due, if persist then healAll db now snapshot else db)

/-- `find_by_td`: first matching row in rowid order. -/
def find_by_td (db : DB) (now td : String) (persist : Bool) : Option Row × DB :=
  match db.rows.find? (fun r => r.td_number = td) with
  | none => (none, db)
  | some r => (some (ensure_due r), if persist then healFromRow db now r else db)

/-- `find_all_by_td`: all rows sharing the identifier, ordered by rowid. -/
def find_all_by_td (db : DB) (now td : String) (persist : Bool) : List Row × DB :=
  let snapshot := db.rows.filter (fun r => r.td_number = td)
  (snapshot.map ensure_due, if persist then healAll db now snapshot else db)

def find_by_psur (db : DB) (now psur : String) (persist : Bool) : Option Row × DB :=
  match db.rows.find? (fun r => r.psur_number = psur) with
  | none => (none, db)
  | some r => (some (ensure_due r), if persist then healFromRow db now r else db)

/-- The LIKE %query% test of `find_by_query` (ASCII case-insensitive). -/
def likeMatch (q field : String) : Bool :=
  isInfixB (lowerChars q.data) (lowerChars field.data)

def queryMatch (q : String) (r : Row) : Bool :=
  likeMatch q r.td_number || likeMatch q r.psur_number ||
  likeMatch q r.product_name || likeMatch q r.catalog_number ||
  likeMatch q r.writer || likeMatch q r.class_ || likeMatch q r.status

def find_by_query (db : DB) (now q : String) (limit : Nat) : List Row × DB :=
  let snapshot := (List.insertionSort tdLe (db.rows.filter (queryMatch q))).take limit
  (snapshot.map ensure_due, healAll db now snapshot)

/-- One textual criterion of `filter_records`: a falsy criterion imposes
no restriction, otherwise case-insensitive substring. -/
def textFilter (crit : Option String) (field : String) : Bool :=
  match crit with
  | none => true
  | some c => if c = "" then true else isInfixB (lowerChars c.data) (lowerChars field.data)

/-- The per-record guard chain of `filter_records`. -/
def filterKeep (today : Date) (writer classification status : Option String)
    (within_days : Option Int) (overdue_only : Bool) (record : Row) : Bool :=
  let due := parse_date record.due_date
  textFilter writer record.writer &&
  textFilter classification record.class_ &&
  textFilter status record.status &&
  (if overdue_only then
      match due with
      | none => false
      | some d => dateLtB d today
    else true) &&
  (match within_days with
   | none => true
   | some n =>
     match due with
     | none => false
     | some d => !(dateLtB d today) && !(dateLtB (addDays today n) d))

/-- `filter_records`: read everything (healing), keep the records passing
every supplied criterion, and sort by (due date with absent mapped to
date.max, td_number). -/
def filter_records (db : DB) (now : String) (today : Date)
    (writer classification status : Option String)
    (within_days : Option Int) (overdue_only : Bool) : List Row × DB :=
  let all := get_all db now true
  (List.insertionSort recLe
      (all.1.filter (filterKeep today writer classification status within_days overdue_only)),
    all.2)

def refresh_due (db : DB) (now td : String) : DB :=
  (find_by_td db now td true).2

/-- The SET clause of `update_record` on one matching row: the allowed
fields, then a fresh updated_at and version + 1. -/
def sqlBump (now : String) (allowed : List (Field × String)) (r : Row) : Row :=
  { applyUpdates r allowed with updated_at := now, version := r.version + 1 }

/-- One row as rewritten by the `update_record` UPDATE statement. -/
def sqlUpd (now td : String) (allowed : List (Field × String)) (r : Row) : Row :=
  if r.td_number = td then sqlBump now allowed r else r

/-- The combined effect on a matching row when the post-update
self-heal also fires: allowed fields, healed due date, fresh
updated_at, version + 2. -/
def sqlHealBump (now due : String) (allowed : List (Field × String)) (r : Row) : Row :=
  { applyUpdates r allowed with due_date := due, updated_at := now, version := r.version + 2 }

/-- `update_record`: drop immutable keys, apply the rest to every row
whose td_number matches, bump version and updated_at, then refresh the
due date through a healing read; the matched-row count decides the result. -/
def update_record (db : DB) (now td : String) (updates : List (Field × String)) :
    Bool × DB :=
  if updates.isEmpty then (false, db)
  else
    let allowed := updates.filter (fun fv => !immutableField fv.1)
    if allowed.isEmpty then (false, db)
    else
      let affected := db.rows.countP (fun r => r.td_number = td)
      let db1 : DB := { db with rows := db.rows.map (sqlUpd now td allowed) }
      if 0 < affected then (true, refresh_due db1 now td) else (false, db1)

/-- `int(td[2:]) + 1` where a non-digit suffix falls back to 1. -/
def tdNextNum (s : String) : Nat :=
  let suffix := s.data.drop 2
  if !suffix.isEmpty && suffix.all isDigitB then natOfDigits suffix + 1 else 1

def tdCandidates (db : DB) : List String :=
  (db.rows.filter fun r => isPrefixB "td".data (lowerChars r.td_number.data)).map
    Row.td_number

def lexTop (cands : List String) : Option String :=
  cands.foldl
    (fun best c =>
      match best with
      | none => some c
      | some b => if strLeB b c then some c else some b)
    none

def formatTd (num : Nat) : String := ⟨'T' :: 'D' :: padZeros 3 (natDigits num)⟩

/-- The auto-assignment branch of `add_record`: lexicographically
greatest identifier LIKE 'TD%' (ASCII case-insensitive), integer suffix
plus one (1 when absent or unparsable), zero-padded to width 3. -/
def nextTdNumber (db : DB) : String :=
  formatTd
    (match lexTop (tdCandidates db) with
     | none => 1
     | some s => tdNextNum s)

/-- `add_record`: assign the identifier when absent, derive the due date,
insert exactly one row, return the identifier. -/
def add_record (db : DB) (now : String) (record : NewRecord) : String × DB :=
  let td := if record.td_number = "" then nextTdNumber db else record.td_number
  let due := format_date (compute_due record.end_period)
  let newRow : Row :=
    { id := db.nextId, td_number := td, psur_number := record.psur_number,
      type := record.type, product_name := record.product_name,
      catalog_number := record.catalog_number, writer := record.writer,
      email := record.email, start_period := record.start_period,
      end_period := record.end_period, frequency := record.frequency,
      due_date := due, status := record.status,
      canada_needed := record.canada_needed, canada_status := record.canada_status,
      comments := record.comments, class_ := record.class_,
      created_at := now, updated_at := now, version := 1 }
  (td, { rows := db.rows ++ [newRow], nextId := db.nextId + 1 })

/-- `delete_record`: DELETE WHERE td_number matches; true iff any row
went away. -/
def delete_record (db : DB) (td : String) : Bool × DB :=
  (db.rows.any (fun r => r.td_number = td),
    { db with rows := db.rows.filter fun r => !(r.td_number = td) })

/-- `add_comment`: read the first matching record without persisting,
append the timestamped comment to its existing notes, and store through
`update_record`.  `stamp` is the "%Y-%m-%d %H:%M" rendering of now. -/
def add_comment (db : DB) (now stamp td comment : String) : Bool × DB :=
  match (find_by_td db now td false).1 with
  | none => (false, db)
  | some record =>
    let stamped := "[" ++ stamp ++ "] " ++ comment
    let existing := record.comments
    let combined := if existing ≠ "" then existing ++ "\n" ++ stamped else stamped
    update_record db now td [(Field.comments, combined)]

/-- The per-target loop shared by the bulk operations: apply one update
to each target in turn, counting successes, never stopping early. -/
def bulkApply (now : String) (mkUpdates : Row → List (Field × String)) :
    DB → List Row → Nat × DB
  | db, [] => (0, db)
  | db, t :: ts =>
    let step := update_record db now t.td_number (mkUpdates t)
    let rest := bulkApply now mkUpdates step.2 ts
    (rest.1 + (if step.1 then 1 else 0), rest.2)

/-- `bulk_update_status` of the store. -/
def bulk_update_status (db : DB) (now : String) (today : Date)
    (writer classification status : Option String)
    (within_days : Option Int) (overdue_only : Bool) (new_status : String) : Nat × DB :=
  let targets := filter_records db now today writer classification status within_days overdue_only
  bulkApply now (fun _ => [(Field.status, new_status)]) targets.2 targets.1

/-! ## Server tool handlers (bulk operations of server.py) -/

/-- A tool response: either a success payload with an updated count or an
error message. -/
inductive ToolResult
  | ok (updated_count : Nat)
  | err (msg : String)
deriving DecidableEq, Repr

/-- Filter criteria as passed to the bulk tools. -/
structure FilterArgs where
  writer : Option String
  classification : Option String
  status : Option String
  within_days : Option Int
  overdue_only : Bool
deriving DecidableEq, Repr

def runFilter (db : DB) (now : String) (today : Date) (f : FilterArgs) :
    List Row × DB :=
  filter_records db now today f.writer f.classification f.status f.within_days f.overdue_only

/-- server.py tool "bulk_update_status". -/
def server_bulk_update_status (db : DB) (now : String) (today : Date)
    (f : FilterArgs) (new_status : String) : ToolResult × DB :=
  if new_status = "" then (.err "new_status required", db)
  else
    let res := bulk_update_status db now today f.writer f.classification f.status
      f.within_days f.overdue_only new_status
    (.ok res.1, res.2)

/-- server.py tool "bulk_update_writer". -/
def server_bulk_update_writer (db : DB) (now : String) (today : Date)
    (f : FilterArgs) (new_writer new_email : String) : ToolResult × DB :=
  if new_writer = "" then (.err "new_writer required", db)
  else
    let targets := runFilter db now today f
    let updates : List (Field × String) :=
      if new_email ≠ "" then [(Field.writer, new_writer), (Field.email, new_email)]
      else [(Field.writer, new_writer)]
    let res := bulkApply now (fun _ => updates) targets.2 targets.1
    (.ok res.1, res.2)

/-- server.py tool "bulk_update_field" (field names are schema columns;
the immutable ones are silently dropped by `update_record`, making every
per-row update report failure). -/
def server_bulk_update_field (db : DB) (now : String) (today : Date)
    (f : FilterArgs) (field : Field) (value : String) : ToolResult × DB :=
  let targets := runFilter db now today f
  let res := bulkApply now (fun _ => [(field, value)]) targets.2 targets.1
  (.ok res.1, res.2)

/-! ## Claim-side predicates (stated from the specification's wording) -/

/-- The due-date derivation contract for a returned record: a parsable
period end yields exactly period end + 30 days, anything else yields the
empty value. -/
def dueOk (r : Row) : Prop :=
  match parse_date r.end_period with
  | some e => r.due_date = format_date (some (addDays e DUE_OFFSET_DAYS))
  | none => r.due_date = ""

/-- A textual criterion as the spec words it: empty or absent imposes no
restriction, otherwise case-insensitive substring match. -/
def claimTextOk (crit : Option String) (field : String) : Prop :=
  ∀ c, crit = some c → c ≠ "" → isInfixB (lowerChars c.data) (lowerChars field.data) = true

/-- The selection semantics claimed for `filter_records`. -/
def claimKeep (today : Date) (writer classification status : Option String)
    (within_days : Option Int) (overdue_only : Bool) (r : Row) : Prop :=
  claimTextOk writer r.writer ∧
  claimTextOk classification r.class_ ∧
  claimTextOk status r.status ∧
  (overdue_only = true → ∃ d, parse_date r.due_date = some d ∧ d.toDays < today.toDays) ∧
  (∀ n, within_days = some n →
    ∃ d, parse_date r.due_date = some d ∧
      today.toDays ≤ d.toDays ∧ d.toDays ≤ (addDays today n).toDays)

/-- Per-target success flags of a bulk run: one flag per target, in
order, independent of earlier failures. -/
def bulkFlags (now : String) (mkUpdates : Row → List (Field × String)) :
    DB → List Row → List Bool
  | _, [] => []
  | db, t :: ts =>
    let step := update_record db now t.td_number (mkUpdates t)
    step.1 :: bulkFlags now mkUpdates step.2 ts

/-- One database evolves into another by a per-row rewrite that keeps
rowid and td_number and never lowers version. -/
def MapEvolves (db db' : DB) : Prop :=
  ∃ g : Row → Row,
    db'.rows = db.rows.map g ∧
    ∀ r : Row, r.version ≤ (g r).version ∧ (g r).id = r.id ∧ (g r).td_number = r.td_number

/-- The store's public operations, as a step alphabet for lifecycle
invariants. -/
inductive StoreOp
  | opGetAll (persist : Bool)
  | opFindByTd (td : String) (persist : Bool)
  | opFindAllByTd (td : String) (persist : Bool)
  | opFindByPsur (p : String) (persist : Bool)
  | opFindByQuery (q : String) (limit : Nat)
  | opFilter (writer classification status : Option String)
      (within_days : Option Int) (overdue_only : Bool)
  | opUpdate (td : String) (us : List (Field × String))
  | opAdd (record : NewRecord)
  | opDelete (td : String)
  | opAddComment (stamp td comment : String)
  | opBulkStatus (writer classification status : Option String)
      (within_days : Option Int) (overdue_only : Bool) (new_status : String)

def execOp (db : DB) (now : String) (today : Date) : StoreOp → DB
  | .opGetAll persist => (get_all db now persist).2
  | .opFindByTd td persist => (find_by_td db now td persist).2
  | .opFindAllByTd td persist => (find_all_by_td db now td persist).2
  | .opFindByPsur p persist => (find_by_psur db now p persist).2
  | .opFindByQuery q limit => (find_by_query db now q limit).2
  | .opFilter w c s wd od => (filter_records db now today w c s wd od).2
  | .opUpdate td us => (update_record db now td us).2
  | .opAdd record => (add_record db now record).2
  | .opDelete td => (delete_record db td).2
  | .opAddComment stamp td comment => (add_comment db now stamp td comment).2
  | .opBulkStatus w c s wd od ns => (bulk_update_status db now today w c s wd od ns).2

/-- Rowids are unique and below the AUTOINCREMENT counter (what SQLite
guarantees for the table). -/
def WfIds (db : DB) : Prop :=
  (db.rows.map Row.id).Nodup ∧ ∀ r ∈ db.rows, r.id < db.nextId

/-! ## Concrete stores used by counterexamples and witnesses -/

def sampleRow : Row :=
  { id := 0, td_number := "TD001", psur_number := "P1", type := "", product_name := "Widget",
    catalog_number := "", writer := "Alice", email := "", start_period := "2024-12-02",
    end_period := "2025-01-01", frequency := "annual", due_date := "2025-01-31",
    status := "Draft", canada_needed := "", canada_status := "", comments := "",
    class_ := "IIa", created_at := "t0", updated_at := "t0", version := 1 }

def sampleDb : DB := { rows := [sampleRow], nextId := 1 }

def dupRow : Row :=
  { sampleRow with
    id := 1, psur_number := "P2", writer := "Bob", end_period := "2025-06-01",
    due_date := "2025-07-01" }

/-- Two rows sharing td_number TD001 with different writers and periods. -/
def dupDb : DB := { rows := [sampleRow, dupRow], nextId := 2 }

def unparsableRow : Row :=
  { sampleRow with id := 0, td_number := "TDA", end_period := "garbage", due_date := "" }

def maxDueRow : Row :=
  { sampleRow with
    id := 1, td_number := "TDB", end_period := "9999-12-01",
    due_date := "9999-12-31" }

/-- A store holding one record with an unparsable period end and one whose
derived due date is exactly date.max. -/
def edgeDb : DB := { rows := [unparsableRow, maxDueRow], nextId := 2 }

def rowT9 : Row := { sampleRow with id := 0, td_number := "TD9" }

def rowT100 : Row := { sampleRow with id := 1, td_number := "TD100" }

/-- Identifiers whose lexicographic and numeric orders disagree. -/
def padDb : DB := { rows := [rowT9, rowT100], nextId := 2 }

/-- A creation payload with no identifier. -/
def autoRecord : NewRecord :=
  { td_number := "", psur_number := "", type := "", product_name := "", catalog_number := "",
    writer := "", email := "", start_period := "", end_period := "2025-01-01",
    frequency := "", due_date := "", status := "", canada_needed := "", canada_status := "",
    comments := "", class_ := "" }

def x1Record : NewRecord := { autoRecord with td_number := "X1", writer := "Alice" }

def x1RecordB : NewRecord := { autoRecord with td_number := "X1", writer := "Bob" }

def emptyDb : DB := { rows := [], nextId := 0 }

def noFilter : FilterArgs := ⟨none, none, none, none, false⟩

/-- The row `add_record` inserts once the identifier has been settled to
the payload's own (non-empty) identifier. -/
def insertedRow (db : DB) (now : String) (rec : NewRecord) : Row :=
  { id := db.nextId, td_number := rec.td_number, psur_number := rec.psur_number,
    type := rec.type, product_name := rec.product_name,
    catalog_number := rec.catalog_number, writer := rec.writer, email := rec.email,
    start_period := rec.start_period, end_period := rec.end_period,
    frequency := rec.frequency, due_date := format_date (compute_due rec.end_period),
    status := rec.status, canada_needed := rec.canada_needed,
    canada_status := rec.canada_status, comments := rec.comments,
    class_ := rec.class_, created_at := now, updated_at := now, version := 1 }

/-- A first row whose stored due date is stale relative to its period
end. -/
def staleRow : Row := { sampleRow with due_date := "1999-01-01" }

/-- A stale first row and a consistent duplicate sharing its
identifier. -/
def staleDb : DB := { rows := [staleRow, dupRow], nextId := 2 }

/-! ## Order lemmas for the comparison relations -/

theorem char_toNat_inj {a b : Char} (h : a.toNat = b.toNat) : a = b := by
  have h2 := congrArg Char.ofNat h
  rwa [Char.ofNat_toNat, Char.ofNat_toNat] at h2

theorem strLtB_irrefl : ∀ a : List Char, strLtB a a = false := by
  intro a
  induction a with
  | nil => rfl
  | cons x xs ih => simp [strLtB, ih]

theorem strLtB_trans : ∀ a b c : List Char,
    strLtB a b = true → strLtB b c = true → strLtB a c = true := by
  intro a
  induction a with
  | nil =>
    intro b c hab hbc
    cases b with
    | nil => simp [strLtB] at hab
    | cons y ys =>
      cases c with
      | nil => simp [strLtB] at hbc
      | cons z zs => simp [strLtB]
  | cons x xs ih =>
    intro b c hab hbc
    cases b with
    | nil => simp [strLtB] at hab
    | cons y ys =>
      cases c with
      | nil => simp [strLtB] at hbc
      | cons z zs =>
        simp only [strLtB] at hab hbc ⊢
        rcases Nat.lt_trichotomy x.toNat y.toNat with h1 | h1 | h1
        · rcases Nat.lt_trichotomy y.toNat z.toNat with h2 | h2 | h2
          · simp [show x.toNat < z.toNat by omega]
          · simp [show x.toNat < z.toNat by omega]
          · have hyz : ¬ y.toNat < z.toNat := by omega
            simp [hyz, h2] at hbc
        · rcases Nat.lt_trichotomy y.toNat z.toNat with h2 | h2 | h2
          · simp [show x.toNat < z.toNat by omega]
          · have e1 : ¬ x.toNat < y.toNat := by omega
            have e2 : ¬ y.toNat < x.toNat := by omega
            have e3 : ¬ y.toNat < z.toNat := by omega
            have e4 : ¬ z.toNat < y.toNat := by omega
            have e5 : ¬ x.toNat < z.toNat := by omega
            have e6 : ¬ z.toNat < x.toNat := by omega
            simp only [e1, e2, if_false, if_neg, if_true] at hab
            simp only [e3, e4, if_false, if_neg, if_true] at hbc
            simp only [e5, e6, if_false, if_neg, if_true]
            exact ih ys zs hab hbc
          · have hyz : ¬ y.toNat < z.toNat := by omega
            simp [hyz, h2] at hbc
        · have hxy : ¬ x.toNat < y.toNat := by omega
          simp [hxy, h1] at hab

theorem strLtB_asymm (a b : List Char) (hab : strLtB a b = true) : strLtB b a = false := by
  cases hv : strLtB b a with
  | false => rfl
  | true =>
    have h2 := strLtB_trans a b a hab hv
    rw [strLtB_irrefl] at h2
    exact Bool.noConfusion h2

theorem strLtB_connex : ∀ a b : List Char,
    strLtB a b = false → strLtB b a = false → a = b := by
  intro a
  induction a with
  | nil =>
    intro b hab _
    cases b with
    | nil => rfl
    | cons y ys => simp [strLtB] at hab
  | cons x xs ih =>
    intro b hab hba
    cases b with
    | nil => simp [strLtB] at hba
    | cons y ys =>
      simp only [strLtB] at hab hba
      rcases Nat.lt_trichotomy x.toNat y.toNat with h1 | h1 | h1
      · simp [h1] at hab
      · have e1 : ¬ x.toNat < y.toNat := by omega
        have e2 : ¬ y.toNat < x.toNat := by omega
        simp only [e1, e2, if_false, if_neg, if_true] at hab hba
        rw [char_toNat_inj h1, ih ys hab hba]
      · simp [h1] at hba

theorem strLeB_refl (a : String) : strLeB a a = true := by
  simp [strLeB, strLtB_irrefl]

theorem strLeB_total (a b : String) : strLeB a b = true ∨ strLeB b a = true := by
  cases hv : strLtB b.data a.data with
  | false => left; simp [strLeB, hv]
  | true => right; simp [strLeB, strLtB_asymm _ _ hv]

theorem strLeB_trans {a b c : String} (hab : strLeB a b = true) (hbc : strLeB b c = true) :
    strLeB a c = true := by
  unfold strLeB at hab hbc ⊢
  rw [Bool.not_eq_true'] at hab hbc ⊢
  cases hv : strLtB c.data a.data with
  | false => rfl
  | true =>
    cases hw : strLtB c.data b.data with
    | true => rw [hw] at hbc; exact hbc
    | false =>
      cases hx : strLtB b.data c.data with
      | true =>
        have h2 := strLtB_trans _ _ _ hx hv
        rw [h2] at hab
        exact hab
      | false =>
        have heq : b.data = c.data := strLtB_connex _ _ hx hw
        rw [heq, hv] at hab
        exact hab

theorem strLeB_antisymm {a b : String} (hab : strLeB a b = true) (hba : strLeB b a = true) :
    a = b := by
  unfold strLeB at hab hba
  rw [Bool.not_eq_true'] at hab hba
  have h := strLtB_connex a.data b.data hba hab
  exact congrArg String.mk h

theorem recLe_iff (a b : Row) :
    recLe a b ↔
      dueKey a < dueKey b ∨ (dueKey a = dueKey b ∧ strLeB a.td_number b.td_number = true) := by
  simp [recLe, recLeB]

theorem recLe_total (a b : Row) : recLe a b ∨ recLe b a := by
  rw [recLe_iff, recLe_iff]
  rcases Int.lt_trichotomy (dueKey a) (dueKey b) with h | h | h
  · exact Or.inl (Or.inl h)
  · rcases strLeB_total a.td_number b.td_number with hs | hs
    · exact Or.inl (Or.inr ⟨h, hs⟩)
    · exact Or.inr (Or.inr ⟨h.symm, hs⟩)
  · exact Or.inr (Or.inl h)

theorem recLe_trans (a b c : Row) (hab : recLe a b) (hbc : recLe b c) : recLe a c := by
  rw [recLe_iff] at hab hbc ⊢
  rcases hab with h1 | ⟨h1, hs1⟩
  · rcases hbc with h2 | ⟨h2, _⟩
    · exact Or.inl (by omega)
    · exact Or.inl (by omega)
  · rcases hbc with h2 | ⟨h2, hs2⟩
    · exact Or.inl (by omega)
    · exact Or.inr ⟨by omega, strLeB_trans hs1 hs2⟩

theorem tdLe_total (a b : Row) : tdLe a b ∨ tdLe b a := strLeB_total _ _

theorem tdLe_trans (a b c : Row) (hab : tdLe a b) (hbc : tdLe b c) : tdLe a c :=
  strLeB_trans hab hbc

/-! ## Theorems for claim C6 -/

/-- C6 (counterexample): with one record whose period end is unparsable
(identifier TDA, empty due date) and one whose derived due date is
exactly 9999-12-31 (identifier TDB), the unrestricted filter output
places the absent-due record strictly BEFORE the concrete-due record,
refuting the claim that absent/unparsable due dates sort after all
concrete ones. -/
theorem C6_counterexample :
    ((filter_records edgeDb "t1" ⟨2025, 6, 1⟩ none none none none false).1.map
        (fun r => (parse_date r.due_date).isSome)) = [false, true] ∧
    ((filter_records edgeDb "t1" ⟨2025, 6, 1⟩ none none none none false).1.map
        Row.td_number) = ["TDA", "TDB"] := by
  constructor
  · decide
  · decide

/-- C6 (amended): for every combination of filter arguments and every
store state, the sequence returned by filter_records is sorted
non-decreasingly by the key (due date with absent or unparsable values
mapped to the maximum date 9999-12-31, then identifier ascending); in
particular absent-due records come after every record whose due date is
strictly earlier than 9999-12-31, but they tie with — and are ordered by
identifier against — a record whose due date equals 9999-12-31. -/
theorem C6_filter_sorted (db : DB) (now : String) (today : Date)
    (writer classification status : Option String) (within_days : Option Int)
    (overdue_only : Bool) :
    List.Sorted
      (fun a b =>
        dueKey a < dueKey b ∨ (dueKey a = dueKey b ∧ strLeB a.td_number b.td_number = true))
      (filter_records db now today writer classification status within_days overdue_only).1 := by
  haveI : IsTotal Row recLe := ⟨recLe_total⟩
  haveI : IsTrans Row recLe := ⟨recLe_trans⟩
  have h := List.sorted_insertionSort recLe
    ((get_all db now true).1.filter
      (filterKeep today writer classification status within_days overdue_only))
  exact h.imp (fun hab => (recLe_iff _ _).mp hab)

/-! ## Theorems for claim C7 -/

theorem textFilter_iff (crit : Option String) (field : String) :
    textFilter crit field = true ↔ claimTextOk crit field := by
  cases crit with
  | none => simp [textFilter, claimTextOk]
  | some c =>
    by_cases hc : c = ""
    · subst hc
      simp [textFilter, claimTextOk]
    · simp [textFilter, claimTextOk, hc]

theorem overdueGuard_iff (today : Date) (od : Bool) (due : Option Date) :
    (if od then
        match due with
        | none => false
        | some d => dateLtB d today
      else true) = true ↔
      (od = true → ∃ d, due = some d ∧ d.toDays < today.toDays) := by
  cases od <;> cases due <;> simp [dateLtB]

theorem windowGuard_iff (today : Date) (wd : Option Int) (due : Option Date) :
    (match wd with
     | none => true
     | some n =>
       match due with
       | none => false
       | some d => !(dateLtB d today) && !(dateLtB (addDays today n) d)) = true ↔
      (∀ n, wd = some n →
        ∃ d, due = some d ∧ today.toDays ≤ d.toDays ∧ d.toDays ≤ (addDays today n).toDays) := by
  cases wd with
  | none => simp
  | some n =>
    cases due with
    | none => simp
    | some d => simp [dateLtB, Int.not_lt]

theorem filterKeep_iff (today : Date) (w c s : Option String) (wd : Option Int)
    (od : Bool) (r : Row) :
    filterKeep today w c s wd od r = true ↔ claimKeep today w c s wd od r := by
  unfold filterKeep claimKeep
  simp only [Bool.and_eq_true, textFilter_iff, overdueGuard_iff, windowGuard_iff]
  tauto

/-- C7: filter_records selects exactly the stored (healed) records that
satisfy every supplied criterion: within_days keeps a record iff
today ≤ due ≤ today + N, overdue_only keeps it iff due < today, records
without a parsable due date are excluded under either date criterion,
textual criteria are case-insensitive substring matches, and an
empty/absent criterion imposes no restriction. -/
theorem C7_filter_selection (db : DB) (now : String) (today : Date)
    (writer classification status : Option String) (within_days : Option Int)
    (overdue_only : Bool) (r : Row) :
    r ∈ (filter_records db now today writer classification status within_days overdue_only).1 ↔
      (r ∈ (get_all db now true).1 ∧
        claimKeep today writer classification status within_days overdue_only r) := by
  show r ∈ List.insertionSort recLe
      ((get_all db now true).1.filter
        (filterKeep today writer classification status within_days overdue_only)) ↔ _
  rw [(List.perm_insertionSort recLe _).mem_iff, List.mem_filter, filterKeep_iff]

/-! ## Theorems for claim C1 -/

theorem dueOk_ensure (r : Row) : dueOk (ensure_due r) := by
  unfold dueOk ensure_due
  cases h : parse_date r.end_period with
  | none => simp [format_date, compute_due, h]
  | some e => simp [compute_due, h]

/-- C1: every record returned by a read operation (find_by_td,
find_all_by_td, find_by_psur, find_by_query, get_all) carries a due date
equal to its period end plus exactly 30 days when the period end parses,
and the empty value (with no exception possible — all paths are total)
otherwise; add_record inserts its one new row with the same derivation,
so the property also holds after every write. -/
theorem C1_due_derivation (db : DB) (now td psur q : String) (limit : Nat)
    (persist : Bool) (record : NewRecord) :
    (∀ r, (find_by_td db now td persist).1 = some r → dueOk r) ∧
    (∀ r, r ∈ (find_all_by_td db now td persist).1 → dueOk r) ∧
    (∀ r, (find_by_psur db now psur persist).1 = some r → dueOk r) ∧
    (∀ r, r ∈ (find_by_query db now q limit).1 → dueOk r) ∧
    (∀ r, r ∈ (get_all db now persist).1 → dueOk r) ∧
    (∀ r, r ∈ (add_record db now record).2.rows →
      r ∈ db.rows ∨ (dueOk r ∧ r.td_number = (add_record db now record).1)) := by
  refine ⟨?_, ?_, ?_, ?_, ?_, ?_⟩
  · intro r hr
    unfold find_by_td at hr
    cases hf : db.rows.find? (fun r => r.td_number = td) with
    | none => rw [hf] at hr; simp at hr
    | some r0 =>
      rw [hf] at hr
      simp at hr
      rw [← hr]
      exact dueOk_ensure r0
  · intro r hr
    unfold find_all_by_td at hr
    simp only [List.mem_map] at hr
    obtain ⟨s, _, hs⟩ := hr
    rw [← hs]
    exact dueOk_ensure s
  · intro r hr
    unfold find_by_psur at hr
    cases hf : db.rows.find? (fun r => r.psur_number = psur) with
    | none => rw [hf] at hr; simp at hr
    | some r0 =>
      rw [hf] at hr
      simp at hr
      rw [← hr]
      exact dueOk_ensure r0
  · intro r hr
    unfold find_by_query at hr
    simp only [List.mem_map] at hr
    obtain ⟨s, _, hs⟩ := hr
    rw [← hs]
    exact dueOk_ensure s
  · intro r hr
    unfold get_all at hr
    simp only [List.mem_map] at hr
    obtain ⟨s, _, hs⟩ := hr
    rw [← hs]
    exact dueOk_ensure s
  · intro r hr
    unfold add_record at hr
    simp only [List.mem_append, List.mem_singleton] at hr
    rcases hr with hold | hnew
    · exact Or.inl hold
    · refine Or.inr ⟨?_, ?_⟩
      · rw [hnew]
        unfold dueOk
        cases h : parse_date record.end_period with
        | none => simp [format_date, compute_due, h]
        | some e => simp [compute_due, h]
      · rw [hnew]
        rfl

/-- C1 (witness): the derivation property evaluated on the concrete
single-row store through get_all. -/
theorem C1_due_derivation_witness : dueOk (ensure_due sampleRow) := by
  have h := (C1_due_derivation sampleDb "t1" "TD001" "P1" "x" 10 true autoRecord).2.2.2.2.1
  exact h (ensure_due sampleRow) (by decide)

/-! ## Shared structural lemmas -/

theorem forall₂_map_self {R : Row → Row → Prop} (g : Row → Row) (l : List Row)
    (h : ∀ r ∈ l, R r (g r)) : List.Forall₂ R l (l.map g) := by
  rw [List.forall₂_map_right_iff]
  exact List.forall₂_same.mpr h

theorem ensure_due_fix (r : Row) (h : format_date (compute_due r.end_period) = r.due_date) :
    ensure_due r = r := by
  unfold ensure_due
  rw [h]

theorem healFromRow_noop (db : DB) (now : String) (r : Row)
    (h : format_date (compute_due r.end_period) = r.due_date) :
    healFromRow db now r = db := by
  unfold healFromRow
  rw [if_neg]
  simp [h]

/-! ## Theorems for claim C10 -/

/-- C10: when a self-healing read (find_by_td) finds the first matching
row's stored due date differing from the re-derived one (and the derived
value non-empty), the corrective write is keyed by the identifier: EVERY
row sharing that identifier — including duplicates whose own period end
derives a different due date — receives the first row's derived due
date, a version bump and a fresh updated_at, while rows with other
identifiers are untouched. -/
theorem C10_heal_hits_all_duplicates (db : DB) (now td : String) (r1 : Row)
    (hfind : db.rows.find? (fun r => r.td_number = td) = some r1)
    (hne : format_date (compute_due r1.end_period) ≠ "")
    (hdiff : r1.due_date ≠ format_date (compute_due r1.end_period)) :
    List.Forall₂
      (fun r r' =>
        (r.td_number = td →
          r' = { r with
                 due_date := format_date (compute_due r1.end_period),
                 updated_at := now, version := r.version + 1 }) ∧
        (r.td_number ≠ td → r' = r))
      db.rows (find_by_td db now td true).2.rows := by
  have htd : r1.td_number = td := by
    have h := List.find?_some hfind
    simpa using h
  unfold find_by_td
  rw [hfind]
  simp only [if_pos]
  unfold healFromRow
  rw [if_pos ⟨hne, hdiff⟩]
  unfold write_due
  simp only
  apply forall₂_map_self
  intro r _
  constructor
  · intro hm
    unfold healUpd healBump
    rw [if_pos (hm.trans htd.symm)]
  · intro hm
    unfold healUpd
    rw [if_neg (fun hc => hm (hc.trans htd))]

/-- C10 (witness): on the concrete store with a stale first row and a
consistent duplicate, the healing read rewrites the duplicate's due date
to the first row's derived value and bumps both versions. -/
theorem C10_heal_hits_all_duplicates_witness :
    List.Forall₂
      (fun r r' =>
        (r.td_number = "TD001" →
          r' = { r with
                 due_date := format_date (compute_due staleRow.end_period),
                 updated_at := "t1", version := r.version + 1 }) ∧
        (r.td_number ≠ "TD001" → r' = r))
      staleDb.rows (find_by_td staleDb "t1" "TD001" true).2.rows ∧
    ((find_by_td staleDb "t1" "TD001" true).2.rows.map Row.due_date
        = ["2025-01-31", "2025-01-31"]) ∧
    ((find_by_td staleDb "t1" "TD001" true).2.rows.map Row.version = [2, 2]) := by
  refine ⟨C10_heal_hits_all_duplicates staleDb "t1" "TD001" staleRow (by decide) (by decide)
    (by decide), by decide, by decide⟩

/-! ## Theorems for claim C5 -/

theorem add_record_explicit (db : DB) (now : String) (rec : NewRecord)
    (h : ¬ rec.td_number = "") :
    add_record db now rec =
      (rec.td_number,
        { rows := db.rows ++ [insertedRow db now rec], nextId := db.nextId + 1 }) := by
  unfold add_record insertedRow
  rw [if_neg h]

/-- C5: creating two records with the same (caller-supplied, non-empty)
identifier succeeds for both — no uniqueness constraint; read-all then
returns exactly those two rows in insertion order; deleting by the
identifier removes both of them (and nothing else), returning true. -/
theorem C5_duplicate_lifecycle (db : DB) (now1 now2 now3 : String) (rec1 rec2 : NewRecord)
    (X : String) (hX : X ≠ "") (h1 : rec1.td_number = X) (h2 : rec2.td_number = X)
    (hfresh : ∀ r ∈ db.rows, r.td_number ≠ X) :
    (add_record db now1 rec1).1 = X ∧
    (add_record (add_record db now1 rec1).2 now2 rec2).1 = X ∧
    (∃ n1 n2 : Row,
      (add_record (add_record db now1 rec1).2 now2 rec2).2.rows = db.rows ++ [n1, n2] ∧
      n1.td_number = X ∧ n2.td_number = X ∧
      (find_all_by_td (add_record (add_record db now1 rec1).2 now2 rec2).2 now3 X true).1
        = [n1, n2] ∧
      (find_all_by_td (add_record (add_record db now1 rec1).2 now2 rec2).2 now3 X true).2
        = (add_record (add_record db now1 rec1).2 now2 rec2).2) ∧
    (delete_record (add_record (add_record db now1 rec1).2 now2 rec2).2 X).1 = true ∧
    (delete_record (add_record (add_record db now1 rec1).2 now2 rec2).2 X).2.rows
      = db.rows := by
  have hne1 : ¬ rec1.td_number = "" := by rw [h1]; exact hX
  have hne2 : ¬ rec2.td_number = "" := by rw [h2]; exact hX
  have e1 := add_record_explicit db now1 rec1 hne1
  have e2 := add_record_explicit (add_record db now1 rec1).2 now2 rec2 hne2
  have hrows1 : (add_record db now1 rec1).2.rows = db.rows ++ [insertedRow db now1 rec1] := by
    rw [e1]
  have hrows2 : (add_record (add_record db now1 rec1).2 now2 rec2).2.rows
      = (add_record db now1 rec1).2.rows
        ++ [insertedRow (add_record db now1 rec1).2 now2 rec2] := by
    rw [e2]
  have hcat : (add_record (add_record db now1 rec1).2 now2 rec2).2.rows
      = db.rows
        ++ [insertedRow db now1 rec1, insertedRow (add_record db now1 rec1).2 now2 rec2] := by
    rw [hrows2, hrows1, List.append_assoc]
    rfl
  have htd1 : (insertedRow db now1 rec1).td_number = X := h1
  have htd2 : (insertedRow (add_record db now1 rec1).2 now2 rec2).td_number = X := h2
  have hfilter : (add_record (add_record db now1 rec1).2 now2 rec2).2.rows.filter
      (fun r => r.td_number = X)
      = [insertedRow db now1 rec1, insertedRow (add_record db now1 rec1).2 now2 rec2] := by
    rw [hcat, List.filter_append]
    have hl : db.rows.filter (fun r => decide (r.td_number = X)) = [] :=
      List.filter_eq_nil_iff.mpr (fun a ha => by simp [hfresh a ha])
    rw [hl]
    simp [htd1, htd2]
  refine ⟨by rw [e1]; exact h1, by rw [e2]; exact h2, ?_, ?_, ?_⟩
  · refine ⟨insertedRow db now1 rec1, insertedRow (add_record db now1 rec1).2 now2 rec2,
      hcat, htd1, htd2, ?_, ?_⟩
    · unfold find_all_by_td
      rw [hfilter]
      simp only [List.map]
      rw [ensure_due_fix _ rfl, ensure_due_fix _ rfl]
    · unfold find_all_by_td
      rw [hfilter]
      simp only [if_pos]
      unfold healAll
      simp only [List.foldl]
      rw [healFromRow_noop _ _ _ rfl, healFromRow_noop _ _ _ rfl]
  · unfold delete_record
    simp only
    rw [hcat]
    exact List.any_eq_true.mpr
      ⟨insertedRow db now1 rec1, by simp, by simp [htd1]⟩
  · unfold delete_record
    simp only
    rw [hcat, List.filter_append]
    have hl : db.rows.filter (fun r => !(decide (r.td_number = X))) = db.rows :=
      List.filter_eq_self.mpr (fun a ha => by simp [hfresh a ha])
    rw [hl]
    simp [htd1, htd2]

/-- C5 (witness): the duplicate lifecycle evaluated on the empty store
with two X1 payloads. -/
theorem C5_duplicate_lifecycle_witness :
    (add_record emptyDb "t1" x1Record).1 = "X1" ∧
    (add_record (add_record emptyDb "t1" x1Record).2 "t2" x1RecordB).1 = "X1" ∧
    (∃ n1 n2 : Row,
      (add_record (add_record emptyDb "t1" x1Record).2 "t2" x1RecordB).2.rows
        = emptyDb.rows ++ [n1, n2] ∧
      n1.td_number = "X1" ∧ n2.td_number = "X1" ∧
      (find_all_by_td (add_record (add_record emptyDb "t1" x1Record).2 "t2" x1RecordB).2
          "t3" "X1" true).1 = [n1, n2] ∧
      (find_all_by_td (add_record (add_record emptyDb "t1" x1Record).2 "t2" x1RecordB).2
          "t3" "X1" true).2
        = (add_record (add_record emptyDb "t1" x1Record).2 "t2" x1RecordB).2) ∧
    (delete_record (add_record (add_record emptyDb "t1" x1Record).2 "t2" x1RecordB).2 "X1").1
      = true ∧
    (delete_record (add_record (add_record emptyDb "t1" x1Record).2 "t2" x1RecordB).2
        "X1").2.rows = emptyDb.rows :=
  C5_duplicate_lifecycle emptyDb "t1" "t2" "t3" x1Record x1RecordB "X1"
    (by decide) (by decide) (by decide) (by decide)

/-! ## Theorems for claim C4 -/

theorem lexTop_go_some (l : List String) :
    ∀ (b t : String),
      l.foldl
          (fun best c =>
            match best with
            | none => some c
            | some b => if strLeB b c then some c else some b)
          (some b) = some t →
        (t = b ∨ t ∈ l) ∧ strLeB b t = true ∧ ∀ c ∈ l, strLeB c t = true := by
  induction l with
  | nil =>
    intro b t h
    simp only [List.foldl] at h
    obtain rfl : b = t := by simpa using h
    exact ⟨Or.inl rfl, strLeB_refl b, by simp⟩
  | cons c cs ih =>
    intro b t h
    simp only [List.foldl] at h
    by_cases hbc : strLeB b c = true
    · rw [if_pos hbc] at h
      obtain ⟨hmem, hle, hall⟩ := ih c t h
      refine ⟨Or.inr ?_, strLeB_trans hbc hle, ?_⟩
      · rcases hmem with rfl | hm
        · exact List.mem_cons_self _ _
        · exact List.mem_cons_of_mem _ hm
      · intro x hx
        rcases List.mem_cons.mp hx with rfl | hx2
        · exact hle
        · exact hall x hx2
    · rw [if_neg hbc] at h
      obtain ⟨hmem, hle, hall⟩ := ih b t h
      have hcb : strLeB c b = true := by
        rcases strLeB_total b c with hv | hv
        · exact absurd hv hbc
        · exact hv
      refine ⟨?_, hle, ?_⟩
      · rcases hmem with rfl | hm
        · exact Or.inl rfl
        · exact Or.inr (List.mem_cons_of_mem _ hm)
      · intro x hx
        rcases List.mem_cons.mp hx with rfl | hx2
        · exact strLeB_trans hcb hle
        · exact hall x hx2

theorem lexTop_spec (cands : List String) (t : String) (h : lexTop cands = some t) :
    t ∈ cands ∧ ∀ c ∈ cands, strLeB c t = true := by
  cases cands with
  | nil => simp [lexTop] at h
  | cons c cs =>
    unfold lexTop at h
    simp only [List.foldl] at h
    obtain ⟨hmem, hle, hall⟩ := lexTop_go_some cs c t h
    refine ⟨?_, ?_⟩
    · rcases hmem with rfl | hm
      · exact List.mem_cons_self _ _
      · exact List.mem_cons_of_mem _ hm
    · intro x hx
      rcases List.mem_cons.mp hx with rfl | hx2
      · exact hle
      · exact hall x hx2

theorem lexTop_go_ne_none (l : List String) :
    ∀ b : String,
      l.foldl
          (fun best c =>
            match best with
            | none => some c
            | some b => if strLeB b c then some c else some b)
          (some b) ≠ none := by
  induction l with
  | nil =>
    intro b h
    simp [List.foldl] at h
  | cons c cs ih =>
    intro b h
    simp only [List.foldl] at h
    by_cases hbc : strLeB b c = true
    · rw [if_pos hbc] at h
      exact ih c h
    · rw [if_neg hbc] at h
      exact ih b h

theorem lexTop_none (cands : List String) (h : lexTop cands = none) : cands = [] := by
  cases cands with
  | nil => rfl
  | cons c cs =>
    exfalso
    unfold lexTop at h
    simp only [List.foldl] at h
    exact lexTop_go_ne_none cs c h

theorem add_record_auto (db : DB) (now : String) (rec : NewRecord)
    (h : rec.td_number = "") :
    add_record db now rec =
      (nextTdNumber db,
        { rows := db.rows ++ [{ insertedRow db now rec with td_number := nextTdNumber db }],
          nextId := db.nextId + 1 }) := by
  unfold add_record insertedRow
  rw [if_pos h]

/-- C4 (counterexample): with existing identifiers TD9 and TD100, the
lexicographically greatest TD identifier is TD9, so auto-assignment
yields TD010 — not TD101, which the max-integer-suffix reading of the
claim would produce (max suffix 100, plus 1). -/
theorem C4_counterexample :
    (add_record padDb "t1" autoRecord).1 = "TD010" ∧
    formatTd (100 + 1) = "TD101" ∧
    (add_record padDb "t1" autoRecord).1 ≠ "TD101" := by
  refine ⟨by decide, by decide, by decide⟩

/-- C4 (amended): when the payload omits the identifier, add_record
inserts exactly one row, derives its due date from the period end, and
returns the identifier written into that row; the identifier is
"TD001" when no identifier LIKE TD% exists, and otherwise
"TD" ++ zero-pad3 (suffix + 1) where suffix is the integer suffix of
the LEXICOGRAPHICALLY greatest TD-prefixed identifier (falling back to
1 when that suffix is not a digit string); in particular the first-ever
auto-created record with period end 2025-01-01 receives TD001 and due
date 2025-01-31. -/
theorem C4_auto_identifier (db : DB) (now : String) (rec : NewRecord)
    (hauto : rec.td_number = "") :
    (add_record db now rec).2.rows.length = db.rows.length + 1 ∧
    (∃ newRow : Row,
      (add_record db now rec).2.rows = db.rows ++ [newRow] ∧
      newRow.td_number = (add_record db now rec).1 ∧
      newRow.due_date = format_date (compute_due rec.end_period)) ∧
    (tdCandidates db = [] → (add_record db now rec).1 = "TD001") ∧
    (∀ m, m ∈ tdCandidates db → (∀ c ∈ tdCandidates db, strLeB c m = true) →
      (add_record db now rec).1 = formatTd (tdNextNum m)) ∧
    (add_record emptyDb now autoRecord).1 = "TD001" ∧
    (add_record emptyDb now autoRecord).2.rows.map Row.due_date = ["2025-01-31"] := by
  have e := add_record_auto db now rec hauto
  refine ⟨?_, ?_, ?_, ?_, ?_, ?_⟩
  · rw [e]
    simp
  · exact ⟨{ insertedRow db now rec with td_number := nextTdNumber db },
      by rw [e], by rw [e], rfl⟩
  · intro hc
    rw [e]
    show nextTdNumber db = "TD001"
    unfold nextTdNumber
    rw [hc]
    rfl
  · intro m hm hmax
    rw [e]
    show nextTdNumber db = formatTd (tdNextNum m)
    unfold nextTdNumber
    cases hv : lexTop (tdCandidates db) with
    | none =>
      rw [lexTop_none _ hv] at hm
      exact absurd hm (List.not_mem_nil m)
    | some t =>
      obtain ⟨htmem, htall⟩ := lexTop_spec _ t hv
      have : t = m := strLeB_antisymm (hmax t htmem) (htall m hm)
      rw [this]
  · rfl
  · rfl

/-- C4 (witness): on the store holding TD9 and TD100, TD9 is the
lexicographic maximum and the theorem yields TD010. -/
theorem C4_auto_identifier_witness :
    (add_record padDb "t1" autoRecord).1 = formatTd (tdNextNum "TD9") := by
  have h := (C4_auto_identifier padDb "t1" autoRecord (by decide)).2.2.2.1
  exact h "TD9" (by decide) (by decide)

/-! ## Structure of update_record (shared by C2, C3, C9) -/

theorem setField_td (r : Row) (f : Field) (v : String) :
    (r.setField f v).td_number = r.td_number := by
  cases f <;> rfl

theorem setField_id (r : Row) (f : Field) (v : String) :
    (r.setField f v).id = r.id := by
  cases f <;> rfl

theorem setField_created (r : Row) (f : Field) (v : String) :
    (r.setField f v).created_at = r.created_at := by
  cases f <;> rfl

theorem setField_version (r : Row) (f : Field) (v : String) :
    (r.setField f v).version = r.version := by
  cases f <;> rfl

theorem setField_end_period (r : Row) (f : Field) (v : String) (h : f ≠ Field.end_period) :
    (r.setField f v).end_period = r.end_period := by
  cases f <;> first
    | rfl
    | exact absurd rfl h

theorem applyUpdates_td (r : Row) (us : List (Field × String)) :
    (applyUpdates r us).td_number = r.td_number := by
  induction us generalizing r with
  | nil => rfl
  | cons fv t ih => rw [applyUpdates, List.foldl_cons, ← applyUpdates, ih, setField_td]

theorem applyUpdates_id (r : Row) (us : List (Field × String)) :
    (applyUpdates r us).id = r.id := by
  induction us generalizing r with
  | nil => rfl
  | cons fv t ih => rw [applyUpdates, List.foldl_cons, ← applyUpdates, ih, setField_id]

theorem applyUpdates_created (r : Row) (us : List (Field × String)) :
    (applyUpdates r us).created_at = r.created_at := by
  induction us generalizing r with
  | nil => rfl
  | cons fv t ih => rw [applyUpdates, List.foldl_cons, ← applyUpdates, ih, setField_created]

theorem applyUpdates_version (r : Row) (us : List (Field × String)) :
    (applyUpdates r us).version = r.version := by
  induction us generalizing r with
  | nil => rfl
  | cons fv t ih => rw [applyUpdates, List.foldl_cons, ← applyUpdates, ih, setField_version]

theorem getField_setField_same (r : Row) (f : Field) (v : String)
    (hm : immutableField f = false) : (r.setField f v).getField f = v := by
  cases f <;> first
    | rfl
    | simp [immutableField] at hm

theorem getField_setField_other (r : Row) (f g : Field) (v : String) (h : g ≠ f) :
    (r.setField g v).getField f = r.getField f := by
  cases g <;> cases f <;> first
    | rfl
    | exact absurd rfl h

theorem applyUpdates_getField_notmem (r : Row) (us : List (Field × String)) (f : Field)
    (h : f ∉ us.map Prod.fst) : (applyUpdates r us).getField f = r.getField f := by
  induction us generalizing r with
  | nil => rfl
  | cons fv t ih =>
    have hne : fv.1 ≠ f := by
      intro hc
      exact h (by simp [hc])
    have ht : f ∉ t.map Prod.fst := by
      intro hc
      exact h (by simp [hc])
    rw [applyUpdates, List.foldl_cons, ← applyUpdates, ih _ ht, getField_setField_other _ _ _ _ hne]

theorem applyUpdates_getField_mem (r : Row) (us : List (Field × String)) (f : Field) (v : String)
    (hnd : (us.map Prod.fst).Nodup) (hm : (f, v) ∈ us) (hmut : immutableField f = false) :
    (applyUpdates r us).getField f = v := by
  induction us generalizing r with
  | nil => exact absurd hm (List.not_mem_nil _)
  | cons fv t ih =>
    rw [applyUpdates, List.foldl_cons, ← applyUpdates]
    have hnd' : fv.1 ∉ t.map Prod.fst ∧ (t.map Prod.fst).Nodup := by
      rw [List.map_cons] at hnd
      exact List.nodup_cons.mp hnd
    rcases List.mem_cons.mp hm with heq | hmt
    · have hf : fv.1 = f := by rw [← heq]
      have hv : fv.2 = v := by rw [← heq]
      have hnotin : f ∉ t.map Prod.fst := by
        have h2 := hnd'.1
        rwa [hf] at h2
      rw [applyUpdates_getField_notmem _ _ _ hnotin, hf, hv,
        getField_setField_same _ _ _ hmut]
    · exact ih (r.setField fv.1 fv.2) hnd'.2 hmt

theorem allowed_all_mutable (us : List (Field × String)) :
    ∀ fv ∈ us.filter (fun fv => !immutableField fv.1), immutableField fv.1 = false := by
  intro fv hfv
  have h := (List.mem_filter.mp hfv).2
  simpa using h

/-- `update_record` with the let chain flattened (definitional). -/
theorem update_record_def (db : DB) (now td : String) (us : List (Field × String)) :
    update_record db now td us =
      (if us.isEmpty then (false, db)
        else if (us.filter fun fv => !immutableField fv.1).isEmpty then (false, db)
        else if 0 < db.rows.countP (fun r => r.td_number = td) then
          (true, refresh_due
            { db with
              rows := db.rows.map (sqlUpd now td (us.filter fun fv => !immutableField fv.1)) }
            now td)
        else
          (false,
            { db with
              rows := db.rows.map
                (sqlUpd now td (us.filter fun fv => !immutableField fv.1)) })) :=
  rfl

/-- `refresh_due` heals through the first matching row (definitional
case split of the find). -/
theorem refresh_due_eq (db : DB) (now td : String) :
    refresh_due db now td =
      match db.rows.find? (fun r => r.td_number = td) with
      | none => db
      | some r1 => healFromRow db now r1 := by
  unfold refresh_due find_by_td
  cases h : db.rows.find? (fun r => r.td_number = td) <;> simp

theorem sqlBump_td (now : String) (allowed : List (Field × String)) (r : Row) :
    (sqlBump now allowed r).td_number = r.td_number :=
  applyUpdates_td r allowed

theorem sqlUpd_matched (now td : String) (allowed : List (Field × String)) (r : Row)
    (h : r.td_number = td) : sqlUpd now td allowed r = sqlBump now allowed r := by
  unfold sqlUpd
  rw [if_pos h]

theorem sqlUpd_unmatched (now td : String) (allowed : List (Field × String)) (r : Row)
    (h : ¬ r.td_number = td) : sqlUpd now td allowed r = r := by
  unfold sqlUpd
  rw [if_neg h]

theorem sqlUpd_td (now td : String) (allowed : List (Field × String)) (r : Row) :
    (sqlUpd now td allowed r).td_number = r.td_number := by
  by_cases h : r.td_number = td
  · rw [sqlUpd_matched now td allowed r h]
    exact sqlBump_td now allowed r
  · rw [sqlUpd_unmatched now td allowed r h]

theorem healBump_sqlBump (now d : String) (allowed : List (Field × String)) (r : Row) :
    healBump d now (sqlBump now allowed r) = sqlHealBump now d allowed r :=
  rfl

theorem healUpd_matched (td due now : String) (r : Row) (h : r.td_number = td) :
    healUpd td due now r = healBump due now r := by
  unfold healUpd
  rw [if_pos h]

theorem healUpd_unmatched (td due now : String) (r : Row) (h : ¬ r.td_number = td) :
    healUpd td due now r = r := by
  unfold healUpd
  rw [if_neg h]

/-- The full pointwise structure of `update_record`: the successor rows
are a per-row rewrite of the old rows; the call succeeds iff a mutable
key survives the immutable-field drop and some row matches; on success
every matching row receives the remaining fields, a fresh updated_at and
a version bump of one — plus, when the read-back self-heal fires, an
overwritten due date and a second version bump shared by all matching
rows; non-matching rows are untouched. -/
theorem update_record_pointwise (db : DB) (now td : String) (us : List (Field × String)) :
    ∃ G : Row → Row,
      (update_record db now td us).2.rows = db.rows.map G ∧
      ((update_record db now td us).1 = true ↔
        (us.filter fun fv => !immutableField fv.1) ≠ [] ∧
          ∃ r ∈ db.rows, r.td_number = td) ∧
      ((update_record db now td us).1 = false → ∀ r, G r = r) ∧
      ((update_record db now td us).1 = true →
        (∀ r, r.td_number ≠ td → G r = r) ∧
        ∃ due : Option String,
          ∀ r, r.td_number = td →
            G r =
              match due with
              | none => sqlBump now (us.filter fun fv => !immutableField fv.1) r
              | some d => sqlHealBump now d (us.filter fun fv => !immutableField fv.1) r) := by
  rw [update_record_def]
  set A := us.filter (fun fv => !immutableField fv.1) with hA
  by_cases h1 : us.isEmpty = true
  · rw [if_pos h1]
    refine ⟨id, by rw [List.map_id], ?_, fun _ r => rfl, by intro h; exact absurd h (by simp)⟩
    have hus : us = [] := List.isEmpty_iff.mp h1
    rw [hA, hus]
    simp
  · rw [if_neg h1]
    by_cases h2 : A.isEmpty = true
    · rw [if_pos h2]
      refine ⟨id, by rw [List.map_id], ?_, fun _ r => rfl,
        by intro h; exact absurd h (by simp)⟩
      rw [List.isEmpty_iff.mp h2]
      simp
    · have hAne : A ≠ [] := fun hc => h2 (by rw [hc]; rfl)
      rw [if_neg h2]
      by_cases h3 : 0 < db.rows.countP fun r => r.td_number = td
      · rw [if_pos h3]
        have hsome : (db.rows.find? fun r => r.td_number = td).isSome := by
          rw [List.find?_isSome]
          exact List.countP_pos_iff.mp h3
        obtain ⟨r0, hr0⟩ := Option.isSome_iff_exists.mp hsome
        have hr0td : r0.td_number = td := by simpa using List.find?_some hr0
        have hr0mem : r0 ∈ db.rows := List.mem_of_find?_eq_some hr0
        have hfindU : (db.rows.map (sqlUpd now td A)).find? (fun r => r.td_number = td)
            = some (sqlUpd now td A r0) := by
          rw [List.find?_map]
          have hpred : ((fun r : Row => decide (r.td_number = td)) ∘ sqlUpd now td A)
              = fun r : Row => decide (r.td_number = td) := by
            funext r
            show decide ((sqlUpd now td A r).td_number = td) = decide (r.td_number = td)
            rw [sqlUpd_td]
          rw [hpred, hr0]
          rfl
        have hrd : refresh_due { db with rows := db.rows.map (sqlUpd now td A) } now td
            = healFromRow { db with rows := db.rows.map (sqlUpd now td A) } now
                (sqlUpd now td A r0) := by
          rw [refresh_due_eq]
          show (match (db.rows.map (sqlUpd now td A)).find? (fun r => r.td_number = td) with
                | none => ({ db with rows := db.rows.map (sqlUpd now td A) } : DB)
                | some r1 =>
                  healFromRow { db with rows := db.rows.map (sqlUpd now td A) } now r1) = _
          rw [hfindU]
        have hb0td : (sqlUpd now td A r0).td_number = td := by
          rw [sqlUpd_td]
          exact hr0td
        rw [hrd]
        unfold healFromRow
        by_cases hheal :
            format_date (compute_due (sqlUpd now td A r0).end_period) ≠ "" ∧
              (sqlUpd now td A r0).due_date
                ≠ format_date (compute_due (sqlUpd now td A r0).end_period)
        · rw [if_pos hheal]
          unfold write_due
          rw [hb0td]
          simp only
          rw [List.map_map]
          refine ⟨_, rfl, ⟨fun _ => ⟨hAne, r0, hr0mem, hr0td⟩, fun _ => by trivial⟩,
            by intro h; exact absurd h (by simp), ?_⟩
          intro _
          constructor
          · intro r hr
            show healUpd td _ now (sqlUpd now td A r) = r
            rw [sqlUpd_unmatched now td A r hr, healUpd_unmatched _ _ _ r hr]
          · refine ⟨some (format_date (compute_due (sqlUpd now td A r0).end_period)),
              fun r hr => ?_⟩
            show healUpd td _ now (sqlUpd now td A r) = _
            rw [sqlUpd_matched now td A r hr,
              healUpd_matched _ _ _ _ ((sqlBump_td now A r).trans hr)]
            exact healBump_sqlBump now _ A r
        · rw [if_neg hheal]
          refine ⟨sqlUpd now td A, rfl, ⟨fun _ => ⟨hAne, r0, hr0mem, hr0td⟩, fun _ => by trivial⟩,
            by intro h; exact absurd h (by simp), ?_⟩
          intro _
          exact ⟨fun r hr => sqlUpd_unmatched now td A r hr, none,
            fun r hr => sqlUpd_matched now td A r hr⟩
      · rw [if_neg h3]
        have hzero : db.rows.countP (fun r => r.td_number = td) = 0 :=
          Nat.eq_zero_of_not_pos h3
        have hnom : ∀ r ∈ db.rows, ¬ r.td_number = td := by
          intro r hr
          have h4 := List.countP_eq_zero.mp hzero r hr
          simpa using h4
        refine ⟨id, ?_, ⟨fun h => absurd h (by simp), fun h => absurd h ?_⟩, fun _ r => rfl,
          by intro h; exact absurd h (by simp)⟩
        · show db.rows.map (sqlUpd now td A) = db.rows.map id
          apply List.map_congr_left
          intro r hr
          exact sqlUpd_unmatched now td A r (hnom r hr)
        · intro ⟨_, r, hr, htd⟩
          exact hnom r hr htd

/-! ## Theorems for claim C8 -/

theorem bulkApply_spec (now : String) (mk : Row → List (Field × String)) :
    ∀ (ts : List Row) (db : DB),
      (bulkApply now mk db ts).1 = (bulkFlags now mk db ts).count true ∧
      (bulkFlags now mk db ts).length = ts.length := by
  intro ts
  induction ts with
  | nil => intro db; exact ⟨rfl, rfl⟩
  | cons t rest ih =>
    intro db
    obtain ⟨h1, h2⟩ := ih (update_record db now t.td_number (mk t)).2
    unfold bulkApply bulkFlags
    simp only
    constructor
    · rw [h1, List.count_cons]
      cases (update_record db now t.td_number (mk t)).1 <;> simp
    · simp [h2]

/-- C8: each of the three bulk tools resolves its targets via
filter_records, then attempts one per-target update for every target
(one success flag per target, in order — a failing row never aborts or
skips the rest, and nothing raises since all paths are total), and
returns the success payload ok with the count of per-target successes,
which can be smaller than the number of targets; concretely, a bulk
field update naming the immutable version column over the two-target
duplicate store reports ok 0 against 2 targets. -/
theorem C8_bulk_semantics (db : DB) (now : String) (today : Date) (f : FilterArgs)
    (ns nw ne : String) (field : Field) (value : String)
    (hns : ns ≠ "") (hnw : nw ≠ "") :
    (∃ n : Nat,
      (server_bulk_update_status db now today f ns).1 = ToolResult.ok n ∧
      n = (bulkFlags now (fun _ => [(Field.status, ns)]) (runFilter db now today f).2
            (runFilter db now today f).1).count true ∧
      (bulkFlags now (fun _ => [(Field.status, ns)]) (runFilter db now today f).2
          (runFilter db now today f).1).length = (runFilter db now today f).1.length ∧
      n ≤ (runFilter db now today f).1.length) ∧
    (∃ n : Nat,
      (server_bulk_update_writer db now today f nw ne).1 = ToolResult.ok n ∧
      n = (bulkFlags now
            (fun _ =>
              if ne ≠ "" then [(Field.writer, nw), (Field.email, ne)]
              else [(Field.writer, nw)])
            (runFilter db now today f).2 (runFilter db now today f).1).count true ∧
      n ≤ (runFilter db now today f).1.length) ∧
    (∃ n : Nat,
      (server_bulk_update_field db now today f field value).1 = ToolResult.ok n ∧
      n = (bulkFlags now (fun _ => [(field, value)]) (runFilter db now today f).2
            (runFilter db now today f).1).count true ∧
      n ≤ (runFilter db now today f).1.length) ∧
    (server_bulk_update_field dupDb "t9" ⟨2025, 1, 1⟩ noFilter Field.version "99").1
      = ToolResult.ok 0 ∧
    (runFilter dupDb "t9" ⟨2025, 1, 1⟩ noFilter).1.length = 2 := by
  have hcount : ∀ (mk : Row → List (Field × String)) (ts : List Row) (d : DB),
      (bulkFlags now mk d ts).count true ≤ ts.length := by
    intro mk ts d
    calc (bulkFlags now mk d ts).count true
        ≤ (bulkFlags now mk d ts).length := List.count_le_length _ _
      _ = ts.length := (bulkApply_spec now mk ts d).2
  refine ⟨?_, ?_, ?_, by decide, by decide⟩
  · refine ⟨(bulkApply now (fun _ => [(Field.status, ns)]) (runFilter db now today f).2
      (runFilter db now today f).1).1, ?_, ?_, ?_, ?_⟩
    · unfold server_bulk_update_status
      rw [if_neg hns]
      rfl
    · exact (bulkApply_spec now _ _ _).1
    · exact (bulkApply_spec now _ _ _).2
    · rw [(bulkApply_spec now _ _ _).1]
      exact hcount _ _ _
  · refine ⟨(bulkApply now
      (fun _ =>
        if ne ≠ "" then [(Field.writer, nw), (Field.email, ne)] else [(Field.writer, nw)])
      (runFilter db now today f).2 (runFilter db now today f).1).1, ?_, ?_, ?_⟩
    · unfold server_bulk_update_writer
      rw [if_neg hnw]
    · exact (bulkApply_spec now _ _ _).1
    · rw [(bulkApply_spec now _ _ _).1]
      exact hcount _ _ _
  · refine ⟨(bulkApply now (fun _ => [(field, value)]) (runFilter db now today f).2
      (runFilter db now today f).1).1, rfl, ?_, ?_⟩
    · exact (bulkApply_spec now _ _ _).1
    · rw [(bulkApply_spec now _ _ _).1]
      exact hcount _ _ _

/-- C8 (witness): the status bulk tool on the duplicate store. -/
theorem C8_bulk_semantics_witness :
    ∃ n : Nat,
      (server_bulk_update_status dupDb "t1" ⟨2025, 1, 1⟩ noFilter "Released").1
        = ToolResult.ok n ∧
      n = (bulkFlags "t1" (fun _ => [(Field.status, "Released")])
            (runFilter dupDb "t1" ⟨2025, 1, 1⟩ noFilter).2
            (runFilter dupDb "t1" ⟨2025, 1, 1⟩ noFilter).1).count true ∧
      (bulkFlags "t1" (fun _ => [(Field.status, "Released")])
          (runFilter dupDb "t1" ⟨2025, 1, 1⟩ noFilter).2
          (runFilter dupDb "t1" ⟨2025, 1, 1⟩ noFilter).1).length
        = (runFilter dupDb "t1" ⟨2025, 1, 1⟩ noFilter).1.length ∧
      n ≤ (runFilter dupDb "t1" ⟨2025, 1, 1⟩ noFilter).1.length :=
  (C8_bulk_semantics dupDb "t1" ⟨2025, 1, 1⟩ noFilter "Released" "W" "" Field.version "99"
    (by decide) (by decide)).1

/-! ## Theorems for claim C9 -/

theorem append_ne_empty_left (a b : String) (h : a ≠ "") : a ++ b ≠ "" := by
  intro hc
  apply h
  have hd := congrArg String.data hc
  rw [String.data_append] at hd
  have ha : a.data = [] := (List.append_eq_nil.mp hd).1
  exact congrArg String.mk ha

/-- A generic update whose key set avoids the comments column leaves
every row's comments unchanged. -/
theorem update_record_frame_comments (db : DB) (now td : String)
    (us : List (Field × String)) (h : Field.comments ∉ us.map Prod.fst) :
    List.Forall₂ (fun r r' => r'.comments = r.comments) db.rows
      (update_record db now td us).2.rows := by
  obtain ⟨G, hrows, _, hfail, hsucc⟩ := update_record_pointwise db now td us
  rw [hrows]
  apply forall₂_map_self
  intro r _
  have hA : Field.comments ∉ (us.filter fun fv => !immutableField fv.1).map Prod.fst := by
    intro hc
    obtain ⟨fv, hfv, hfst⟩ := List.mem_map.mp hc
    exact h (List.mem_map.mpr ⟨fv, (List.mem_filter.mp hfv).1, hfst⟩)
  cases hok : (update_record db now td us).1 with
  | false => rw [hfail hok r]
  | true =>
    obtain ⟨hun, due, hm⟩ := hsucc hok
    by_cases hr : r.td_number = td
    · rw [hm r hr]
      cases due with
      | none =>
        show (applyUpdates r (us.filter fun fv => !immutableField fv.1)).comments = r.comments
        exact applyUpdates_getField_notmem r _ Field.comments hA
      | some d =>
        show (applyUpdates r (us.filter fun fv => !immutableField fv.1)).comments = r.comments
        exact applyUpdates_getField_notmem r _ Field.comments hA
    · rw [hun r hr]

/-- Setting exactly the comments column writes that value to every
matching row. -/
theorem update_record_set_comments (db : DB) (now td v : String)
    (hmatch : ∃ r ∈ db.rows, r.td_number = td) :
    (update_record db now td [(Field.comments, v)]).1 = true ∧
    ∃ G : Row → Row,
      (update_record db now td [(Field.comments, v)]).2.rows = db.rows.map G ∧
      (∀ r, (G r).td_number = r.td_number) ∧
      (∀ r, r.td_number ≠ td → G r = r) ∧
      (∀ r, r.td_number = td → (G r).comments = v) := by
  obtain ⟨G, hrows, hiff, _, hsucc⟩ := update_record_pointwise db now td [(Field.comments, v)]
  have hok : (update_record db now td [(Field.comments, v)]).1 = true :=
    hiff.mpr ⟨by simp [List.filter, immutableField], hmatch⟩
  obtain ⟨hun, due, hm⟩ := hsucc hok
  refine ⟨hok, G, hrows, ?_, hun, ?_⟩
  · intro r
    by_cases hr : r.td_number = td
    · rw [hm r hr]
      cases due with
      | none => exact applyUpdates_td r _
      | some d => exact applyUpdates_td r _
    · rw [hun r hr]
  · intro r hr
    rw [hm r hr]
    cases due with
    | none => rfl
    | some d => rfl

theorem add_comment_eq (db : DB) (now stamp td comment : String) (r : Row)
    (hf : db.rows.find? (fun x => x.td_number = td) = some r) :
    add_comment db now stamp td comment
      = update_record db now td
          [(Field.comments,
            if r.comments ≠ "" then r.comments ++ "\n" ++ ("[" ++ stamp ++ "] " ++ comment)
            else "[" ++ stamp ++ "] " ++ comment)] := by
  unfold add_comment find_by_td
  rw [hf]
  rfl

/-- C9: appending a note twice to the same record stores both
timestamped notes in call order — the second is appended after the
first, which is preserved as a prefix together with any pre-existing
notes; and any update whose field map does not name the comments column
leaves every row's comments untouched. -/
theorem C9_notes_append (db : DB) (now1 now2 stamp1 stamp2 td c1 c2 : String) (r0 : Row)
    (hfind : db.rows.find? (fun r => r.td_number = td) = some r0) :
    (add_comment db now1 stamp1 td c1).1 = true ∧
    (add_comment (add_comment db now1 stamp1 td c1).2 now2 stamp2 td c2).1 = true ∧
    (∀ r' ∈ (add_comment (add_comment db now1 stamp1 td c1).2 now2 stamp2 td c2).2.rows,
      r'.td_number = td →
        ∃ pre : String,
          r'.comments
            = pre ++ ("[" ++ stamp1 ++ "] " ++ c1) ++ "\n" ++ ("[" ++ stamp2 ++ "] " ++ c2) ∧
          (pre = "" ∨ pre = r0.comments ++ "\n")) ∧
    (∀ (db' : DB) (now' td' : String) (us : List (Field × String)),
      Field.comments ∉ us.map Prod.fst →
      List.Forall₂ (fun r r' => r'.comments = r.comments) db'.rows
        (update_record db' now' td' us).2.rows) := by
  have hr0td : r0.td_number = td := by simpa using List.find?_some hfind
  have hr0mem : r0 ∈ db.rows := List.mem_of_find?_eq_some hfind
  have hs1 := add_comment_eq db now1 stamp1 td c1 r0 hfind
  obtain ⟨hok1, G1, hrows1, hGtd1, hGun1, hGset1⟩ :=
    update_record_set_comments db now1 td
      (if r0.comments ≠ "" then r0.comments ++ "\n" ++ ("[" ++ stamp1 ++ "] " ++ c1)
        else "[" ++ stamp1 ++ "] " ++ c1)
      ⟨r0, hr0mem, hr0td⟩
  have hstne : ("[" ++ stamp1 ++ "] " ++ c1 : String) ≠ "" :=
    append_ne_empty_left _ _ (append_ne_empty_left _ _ (append_ne_empty_left _ _ (by decide)))
  have hcomb1ne :
      (if r0.comments ≠ "" then r0.comments ++ "\n" ++ ("[" ++ stamp1 ++ "] " ++ c1)
        else "[" ++ stamp1 ++ "] " ++ c1) ≠ "" := by
    by_cases h : r0.comments ≠ ""
    · rw [if_pos h]
      exact append_ne_empty_left _ _ (append_ne_empty_left _ _ h)
    · rw [if_neg h]
      exact hstne
  have hfind2 :
      (update_record db now1 td
        [(Field.comments,
          if r0.comments ≠ "" then r0.comments ++ "\n" ++ ("[" ++ stamp1 ++ "] " ++ c1)
          else "[" ++ stamp1 ++ "] " ++ c1)]).2.rows.find? (fun r => r.td_number = td)
      = some (G1 r0) := by
    rw [hrows1, List.find?_map]
    have hq : ((fun r : Row => decide (r.td_number = td)) ∘ G1)
        = fun r : Row => decide (r.td_number = td) := by
      funext r
      show decide ((G1 r).td_number = td) = decide (r.td_number = td)
      rw [hGtd1 r]
    rw [hq, hfind]
    rfl
  have hG1r0c : (G1 r0).comments =
      (if r0.comments ≠ "" then r0.comments ++ "\n" ++ ("[" ++ stamp1 ++ "] " ++ c1)
        else "[" ++ stamp1 ++ "] " ++ c1) := hGset1 r0 hr0td
  have hs2 := add_comment_eq (update_record db now1 td
      [(Field.comments,
        if r0.comments ≠ "" then r0.comments ++ "\n" ++ ("[" ++ stamp1 ++ "] " ++ c1)
        else "[" ++ stamp1 ++ "] " ++ c1)]).2 now2 stamp2 td c2 (G1 r0) hfind2
  rw [hG1r0c, if_pos hcomb1ne] at hs2
  obtain ⟨hok2, G2, hrows2, hGtd2, hGun2, hGset2⟩ :=
    update_record_set_comments
      (update_record db now1 td
        [(Field.comments,
          if r0.comments ≠ "" then r0.comments ++ "\n" ++ ("[" ++ stamp1 ++ "] " ++ c1)
          else "[" ++ stamp1 ++ "] " ++ c1)]).2 now2 td
      ((if r0.comments ≠ "" then r0.comments ++ "\n" ++ ("[" ++ stamp1 ++ "] " ++ c1)
        else "[" ++ stamp1 ++ "] " ++ c1) ++ "\n" ++ ("[" ++ stamp2 ++ "] " ++ c2))
      ⟨G1 r0, by rw [hrows1]; exact List.mem_map_of_mem _ hr0mem,
        by rw [hGtd1]; exact hr0td⟩
  refine ⟨by rw [hs1]; exact hok1, by rw [hs1, hs2]; exact hok2, ?_,
    fun db' now' td' us h => update_record_frame_comments db' now' td' us h⟩
  intro r' hr' hrtd
  rw [hs1, hs2] at hr'
  rw [hrows2] at hr'
  obtain ⟨s, hs, rfl⟩ := List.mem_map.mp hr'
  have hstd : s.td_number = td := by rw [← hGtd2 s]; exact hrtd
  have hc2 := hGset2 s hstd
  by_cases h : r0.comments ≠ ""
  · refine ⟨r0.comments ++ "\n", ?_, Or.inr rfl⟩
    rw [hc2, if_pos h]
  · refine ⟨"", ?_, Or.inl rfl⟩
    rw [hc2, if_neg h]
    rfl

/-- C9 (witness): two appends on the concrete single-row store. -/
theorem C9_notes_append_witness :
    (add_comment sampleDb "t1" "s1" "TD001" "first").1 = true ∧
    (add_comment (add_comment sampleDb "t1" "s1" "TD001" "first").2 "t2" "s2" "TD001"
        "second").1 = true ∧
    (∀ r' ∈ (add_comment (add_comment sampleDb "t1" "s1" "TD001" "first").2 "t2" "s2" "TD001"
        "second").2.rows,
      r'.td_number = "TD001" →
        ∃ pre : String,
          r'.comments = pre ++ ("[" ++ "s1" ++ "] " ++ "first") ++ "\n"
            ++ ("[" ++ "s2" ++ "] " ++ "second") ∧
          (pre = "" ∨ pre = sampleRow.comments ++ "\n")) ∧
    (∀ (db' : DB) (now' td' : String) (us : List (Field × String)),
      Field.comments ∉ us.map Prod.fst →
      List.Forall₂ (fun r r' => r'.comments = r.comments) db'.rows
        (update_record db' now' td' us).2.rows) :=
  C9_notes_append sampleDb "t1" "t2" "s1" "s2" "TD001" "first" "second" sampleRow (by decide)

/-! ## Version monotonicity across the store lifecycle (for C2) -/

theorem mapEvolves_refl (db : DB) : MapEvolves db db :=
  ⟨id, (List.map_id _).symm, fun _ => ⟨le_refl _, rfl, rfl⟩⟩

theorem mapEvolves_trans {db1 db2 db3 : DB} (h12 : MapEvolves db1 db2)
    (h23 : MapEvolves db2 db3) : MapEvolves db1 db3 := by
  obtain ⟨g1, hrows1, hg1⟩ := h12
  obtain ⟨g2, hrows2, hg2⟩ := h23
  refine ⟨g2 ∘ g1, by rw [hrows2, hrows1, List.map_map], fun r => ?_⟩
  refine ⟨le_trans (hg1 r).1 (hg2 (g1 r)).1, ?_, ?_⟩
  · show (g2 (g1 r)).id = r.id
    rw [(hg2 (g1 r)).2.1, (hg1 r).2.1]
  · show (g2 (g1 r)).td_number = r.td_number
    rw [(hg2 (g1 r)).2.2, (hg1 r).2.2]

theorem mapEvolves_write_due (db : DB) (td due now : String) :
    MapEvolves db (write_due db td due now) := by
  refine ⟨healUpd td due now, rfl, fun r => ?_⟩
  by_cases h : r.td_number = td
  · rw [healUpd_matched _ _ _ _ h]
    exact ⟨Nat.le_succ _, rfl, rfl⟩
  · rw [healUpd_unmatched _ _ _ _ h]
    exact ⟨le_refl _, rfl, rfl⟩

theorem mapEvolves_healFromRow (db : DB) (now : String) (r : Row) :
    MapEvolves db (healFromRow db now r) := by
  unfold healFromRow
  by_cases h : format_date (compute_due r.end_period) ≠ "" ∧
      r.due_date ≠ format_date (compute_due r.end_period)
  · rw [if_pos h]
    exact mapEvolves_write_due db r.td_number _ now
  · rw [if_neg h]
    exact mapEvolves_refl db

theorem mapEvolves_healAll (now : String) :
    ∀ (snapshot : List Row) (db : DB), MapEvolves db (healAll db now snapshot) := by
  intro snapshot
  induction snapshot with
  | nil => intro db; exact mapEvolves_refl db
  | cons s t ih =>
    intro db
    exact mapEvolves_trans (mapEvolves_healFromRow db now s) (ih (healFromRow db now s))

theorem mapEvolves_update_record (db : DB) (now td : String) (us : List (Field × String)) :
    MapEvolves db (update_record db now td us).2 := by
  obtain ⟨G, hrows, _, hfail, hsucc⟩ := update_record_pointwise db now td us
  refine ⟨G, hrows, fun r => ?_⟩
  cases hok : (update_record db now td us).1 with
  | false =>
    rw [hfail hok r]
    exact ⟨le_refl _, rfl, rfl⟩
  | true =>
    obtain ⟨hun, due, hm⟩ := hsucc hok
    by_cases hr : r.td_number = td
    · rw [hm r hr]
      cases due with
      | none => exact ⟨Nat.le_succ _, applyUpdates_id r _, applyUpdates_td r _⟩
      | some d => exact ⟨Nat.le_add_right _ 2, applyUpdates_id r _, applyUpdates_td r _⟩
    · rw [hun r hr]
      exact ⟨le_refl _, rfl, rfl⟩

theorem mapEvolves_get_all (db : DB) (now : String) (persist : Bool) :
    MapEvolves db (get_all db now persist).2 := by
  unfold get_all
  cases persist with
  | false => exact mapEvolves_refl db
  | true => exact mapEvolves_healAll now _ db

theorem mapEvolves_find_by_td (db : DB) (now td : String) (persist : Bool) :
    MapEvolves db (find_by_td db now td persist).2 := by
  unfold find_by_td
  cases h : db.rows.find? (fun r => r.td_number = td) with
  | none => exact mapEvolves_refl db
  | some r =>
    cases persist with
    | false => exact mapEvolves_refl db
    | true => exact mapEvolves_healFromRow db now r

theorem mapEvolves_find_all_by_td (db : DB) (now td : String) (persist : Bool) :
    MapEvolves db (find_all_by_td db now td persist).2 := by
  unfold find_all_by_td
  cases persist with
  | false => exact mapEvolves_refl db
  | true => exact mapEvolves_healAll now _ db

theorem mapEvolves_find_by_psur (db : DB) (now psur : String) (persist : Bool) :
    MapEvolves db (find_by_psur db now psur persist).2 := by
  unfold find_by_psur
  cases h : db.rows.find? (fun r => r.psur_number = psur) with
  | none => exact mapEvolves_refl db
  | some r =>
    cases persist with
    | false => exact mapEvolves_refl db
    | true => exact mapEvolves_healFromRow db now r

theorem mapEvolves_find_by_query (db : DB) (now q : String) (limit : Nat) :
    MapEvolves db (find_by_query db now q limit).2 := by
  unfold find_by_query
  exact mapEvolves_healAll now _ db

theorem mapEvolves_filter_records (db : DB) (now : String) (today : Date)
    (w c s : Option String) (wd : Option Int) (od : Bool) :
    MapEvolves db (filter_records db now today w c s wd od).2 := by
  unfold filter_records
  exact mapEvolves_get_all db now true

theorem mapEvolves_add_comment (db : DB) (now stamp td comment : String) :
    MapEvolves db (add_comment db now stamp td comment).2 := by
  unfold add_comment
  cases h : (find_by_td db now td false).1 with
  | none => exact mapEvolves_refl db
  | some record => exact mapEvolves_update_record db now td _

theorem mapEvolves_bulkApply (now : String) (mk : Row → List (Field × String)) :
    ∀ (ts : List Row) (db : DB), MapEvolves db (bulkApply now mk db ts).2 := by
  intro ts
  induction ts with
  | nil => intro db; exact mapEvolves_refl db
  | cons t rest ih =>
    intro db
    exact mapEvolves_trans (mapEvolves_update_record db now t.td_number (mk t))
      (ih (update_record db now t.td_number (mk t)).2)

theorem mapEvolves_bulk_update_status (db : DB) (now : String) (today : Date)
    (w c s : Option String) (wd : Option Int) (od : Bool) (ns : String) :
    MapEvolves db (bulk_update_status db now today w c s wd od ns).2 := by
  unfold bulk_update_status
  exact mapEvolves_trans (mapEvolves_filter_records db now today w c s wd od)
    (mapEvolves_bulkApply now _ _ _)

theorem version_mono_of_mapEvolves (db db' : DB) (h : MapEvolves db db') (hwf : WfIds db) :
    ∀ r ∈ db.rows, ∀ r' ∈ db'.rows, r'.id = r.id → r.version ≤ r'.version := by
  intro r hr r' hr' hid
  obtain ⟨g, hrows, hg⟩ := h
  rw [hrows] at hr'
  obtain ⟨s, hs, rfl⟩ := List.mem_map.mp hr'
  have hsid : s.id = r.id := by
    rw [← (hg s).2.1]
    exact hid
  have hseq : s = r := List.inj_on_of_nodup_map hwf.1 hs hr hsid
  rw [← hseq]
  exact (hg s).1

/-- Across every public store operation, a surviving row (identified by
rowid) never sees its version decrease. -/
theorem execOp_version_mono (db : DB) (now : String) (today : Date) (op : StoreOp)
    (hwf : WfIds db) :
    ∀ r ∈ db.rows, ∀ r' ∈ (execOp db now today op).rows, r'.id = r.id →
      r.version ≤ r'.version := by
  cases op with
  | opAdd rec =>
    intro r hr r' hr' hid
    have hrows : ∃ n : Row,
        (add_record db now rec).2.rows = db.rows ++ [n] ∧ n.id = db.nextId := by
      by_cases h : rec.td_number = ""
      · rw [add_record_auto db now rec h]
        exact ⟨_, rfl, rfl⟩
      · rw [add_record_explicit db now rec h]
        exact ⟨_, rfl, rfl⟩
    obtain ⟨n, hra, hnid⟩ := hrows
    have hr2 : r' ∈ db.rows ++ [n] := by
      rw [← hra]
      exact hr'
    rcases List.mem_append.mp hr2 with hold | hnew
    · rw [← List.inj_on_of_nodup_map hwf.1 hold hr hid]
    · have hn : r' = n := by simpa using hnew
      rw [hn, hnid] at hid
      exact absurd hid (hwf.2 r hr).ne'
  | opDelete td =>
    intro r hr r' hr' hid
    have hr2 : r' ∈ db.rows.filter (fun x => !(x.td_number = td)) := hr'
    have hmem : r' ∈ db.rows := List.mem_of_mem_filter hr2
    rw [← List.inj_on_of_nodup_map hwf.1 hmem hr hid]
  | opGetAll persist =>
    exact version_mono_of_mapEvolves db _ (mapEvolves_get_all db now persist) hwf
  | opFindByTd td persist =>
    exact version_mono_of_mapEvolves db _ (mapEvolves_find_by_td db now td persist) hwf
  | opFindAllByTd td persist =>
    exact version_mono_of_mapEvolves db _ (mapEvolves_find_all_by_td db now td persist) hwf
  | opFindByPsur p persist =>
    exact version_mono_of_mapEvolves db _ (mapEvolves_find_by_psur db now p persist) hwf
  | opFindByQuery q limit =>
    exact version_mono_of_mapEvolves db _ (mapEvolves_find_by_query db now q limit) hwf
  | opFilter w c s wd od =>
    exact version_mono_of_mapEvolves db _ (mapEvolves_filter_records db now today w c s wd od)
      hwf
  | opUpdate td us =>
    exact version_mono_of_mapEvolves db _ (mapEvolves_update_record db now td us) hwf
  | opAddComment stamp td comment =>
    exact version_mono_of_mapEvolves db _ (mapEvolves_add_comment db now stamp td comment) hwf
  | opBulkStatus w c s wd od ns =>
    exact version_mono_of_mapEvolves db _
      (mapEvolves_bulk_update_status db now today w c s wd od ns) hwf

/-! ## Theorems for claim C2 -/

/-- C2 (counterexample): one single successful update_record call — it
changes end_period, so the read-back self-heal fires — lifts the row's
version from 1 to 3, not by exactly 1. -/
theorem C2_counterexample :
    sampleRow.version = 1 ∧
    (update_record sampleDb "t1" "TD001" [(Field.end_period, "2025-02-01")]).1 = true ∧
    ((update_record sampleDb "t1" "TD001" [(Field.end_period, "2025-02-01")]).2.rows.map
        Row.version) = [3] := by
  exact ⟨rfl, by decide, by decide⟩

/-- C2 (amended): a single successful update_record call increases each
matched row's version by exactly 1, or by exactly 2 when the due-date
self-heal of the read-back fires, never less; it sets updated_at to the
call's timestamp on every matched row and leaves unmatched rows
untouched; and across every public store operation a surviving row's
version never decreases or resets. -/
theorem C2_version_semantics (db : DB) (now td : String) (us : List (Field × String))
    (today : Date) (op : StoreOp) (hwf : WfIds db) :
    List.Forall₂
      (fun r r' =>
        (r.td_number ≠ td → r' = r) ∧
        ((update_record db now td us).1 = true → r.td_number = td →
          (r'.version = r.version + 1 ∨ r'.version = r.version + 2) ∧ r'.updated_at = now) ∧
        r.version ≤ r'.version)
      db.rows (update_record db now td us).2.rows ∧
    (∀ r ∈ db.rows, ∀ r' ∈ (execOp db now today op).rows, r'.id = r.id →
      r.version ≤ r'.version) := by
  refine ⟨?_, execOp_version_mono db now today op hwf⟩
  obtain ⟨G, hrows, _, hfail, hsucc⟩ := update_record_pointwise db now td us
  rw [hrows]
  apply forall₂_map_self
  intro r _
  cases hok : (update_record db now td us).1 with
  | false =>
    rw [hfail hok r]
    exact ⟨fun _ => rfl, fun h _ => Bool.noConfusion h, le_refl _⟩
  | true =>
    obtain ⟨hun, due, hm⟩ := hsucc hok
    by_cases hr : r.td_number = td
    · rw [hm r hr]
      cases due with
      | none =>
        exact ⟨fun hc => absurd hr hc, fun _ _ => ⟨Or.inl rfl, rfl⟩, Nat.le_succ _⟩
      | some d =>
        exact ⟨fun hc => absurd hr hc, fun _ _ => ⟨Or.inr rfl, rfl⟩, Nat.le_add_right _ 2⟩
    · rw [hun r hr]
      exact ⟨fun _ => rfl, fun _ hm2 => absurd hm2 hr, le_refl _⟩

/-- C2 (witness): the version discipline evaluated on the concrete
single-row store with a plain status update and a healing read. -/
theorem C2_version_semantics_witness :
    List.Forall₂
      (fun r r' =>
        (r.td_number ≠ "TD001" → r' = r) ∧
        ((update_record sampleDb "t1" "TD001" [(Field.status, "Released")]).1 = true →
          r.td_number = "TD001" →
          (r'.version = r.version + 1 ∨ r'.version = r.version + 2) ∧ r'.updated_at = "t1") ∧
        r.version ≤ r'.version)
      sampleDb.rows (update_record sampleDb "t1" "TD001" [(Field.status, "Released")]).2.rows ∧
    (∀ r ∈ sampleDb.rows,
      ∀ r' ∈ (execOp sampleDb "t1" ⟨2025, 1, 1⟩ (StoreOp.opGetAll true)).rows,
        r'.id = r.id → r.version ≤ r'.version) :=
  C2_version_semantics sampleDb "t1" "TD001" [(Field.status, "Released")] ⟨2025, 1, 1⟩
    (StoreOp.opGetAll true) (by unfold WfIds; exact ⟨by decide, by decide⟩)

/-! ## Theorems for claim C3 -/

theorem mutableField_ne (f : Field) (h : immutableField f = false) :
    f ≠ Field.id ∧ f ≠ Field.td_number ∧ f ≠ Field.created_at ∧ f ≠ Field.updated_at ∧
      f ≠ Field.version := by
  cases f <;> simp_all [immutableField]

theorem sqlBump_getField (now : String) (A : List (Field × String)) (r : Row) (f : Field)
    (h1 : f ≠ Field.updated_at) (h2 : f ≠ Field.version) :
    (sqlBump now A r).getField f = (applyUpdates r A).getField f := by
  cases f <;> first
    | rfl
    | exact absurd rfl h1
    | exact absurd rfl h2

theorem sqlHealBump_getField (now d : String) (A : List (Field × String)) (r : Row)
    (f : Field) (h0 : f ≠ Field.due_date) (h1 : f ≠ Field.updated_at)
    (h2 : f ≠ Field.version) :
    (sqlHealBump now d A r).getField f = (applyUpdates r A).getField f := by
  cases f <;> first
    | rfl
    | exact absurd rfl h0
    | exact absurd rfl h1
    | exact absurd rfl h2

/-- C3 (counterexample): with two rows sharing identifier TD001, a
status update rewrites BOTH rows — the row beyond the first does not
stay unchanged; and an update naming only immutable fields returns
false even though a row matches, against the claimed
"true iff at least one row matched". -/
theorem C3_counterexample :
    (update_record dupDb "t1" "TD001" [(Field.status, "Released")]).1 = true ∧
    dupRow.status = "Draft" ∧
    ((update_record dupDb "t1" "TD001" [(Field.status, "Released")]).2.rows.map Row.status)
      = ["Released", "Released"] ∧
    (update_record dupDb "t1" "TD001" [(Field.version, "99")]).1 = false := by
  exact ⟨by decide, rfl, by decide, by decide⟩

/-- C3 (amended): update_record drops the immutable fields
(td_number, created_at, updated_at, version, and the internal id),
applies the remaining fields to EVERY row whose identifier matches
(not only the first), re-derives due_date through the read-back heal,
bumps version (by one, or by two when the heal fires) and sets
updated_at on every matched row, leaves non-matching rows unchanged,
and returns true iff the remaining field map is non-empty AND at least
one row matched. -/
theorem C3_update_semantics (db : DB) (now td : String) (us : List (Field × String))
    (hnd : (us.map Prod.fst).Nodup) :
    ((update_record db now td us).1 = true ↔
      (us.filter fun fv => !immutableField fv.1) ≠ [] ∧ ∃ r ∈ db.rows, r.td_number = td) ∧
    List.Forall₂
      (fun r r' =>
        (r.td_number ≠ td → r' = r) ∧
        ((update_record db now td us).1 = true → r.td_number = td →
          r'.td_number = r.td_number ∧ r'.id = r.id ∧ r'.created_at = r.created_at ∧
          r'.updated_at = now ∧
          (r'.version = r.version + 1 ∨ r'.version = r.version + 2) ∧
          (∀ f v, (f, v) ∈ us → immutableField f = false → f ≠ Field.due_date →
            r'.getField f = v) ∧
          (∀ f, immutableField f = false → f ∉ us.map Prod.fst → f ≠ Field.due_date →
            r'.getField f = r.getField f)))
      db.rows (update_record db now td us).2.rows := by
  obtain ⟨G, hrows, hiff, hfail, hsucc⟩ := update_record_pointwise db now td us
  have hAnd : ((us.filter fun fv => !immutableField fv.1).map Prod.fst).Nodup :=
    List.Nodup.sublist (List.Sublist.map Prod.fst (List.filter_sublist us)) hnd
  refine ⟨hiff, ?_⟩
  rw [hrows]
  apply forall₂_map_self
  intro r _
  cases hok : (update_record db now td us).1 with
  | false =>
    rw [hfail hok r]
    exact ⟨fun _ => rfl, fun h => Bool.noConfusion h⟩
  | true =>
    obtain ⟨hun, due, hm⟩ := hsucc hok
    by_cases hmatch : r.td_number = td
    · rw [hm r hmatch]
      cases due with
      | none =>
        refine ⟨fun hc => absurd hmatch hc, fun _ _ => ?_⟩
        refine ⟨applyUpdates_td r _, applyUpdates_id r _, applyUpdates_created r _, rfl,
          Or.inl rfl, ?_, ?_⟩
        · intro f v hmem hmut hnotdue
          obtain ⟨_, _, _, hne_up, hne_ver⟩ := mutableField_ne f hmut
          rw [sqlBump_getField now _ r f hne_up hne_ver]
          exact applyUpdates_getField_mem r _ f v hAnd
            (List.mem_filter.mpr ⟨hmem, by simp [hmut]⟩) hmut
        · intro f hmut hnot hnotdue
          obtain ⟨_, _, _, hne_up, hne_ver⟩ := mutableField_ne f hmut
          rw [sqlBump_getField now _ r f hne_up hne_ver]
          apply applyUpdates_getField_notmem
          intro hc
          obtain ⟨fv, hfv, hfst⟩ := List.mem_map.mp hc
          exact hnot (List.mem_map.mpr ⟨fv, (List.mem_filter.mp hfv).1, hfst⟩)
      | some d =>
        refine ⟨fun hc => absurd hmatch hc, fun _ _ => ?_⟩
        refine ⟨applyUpdates_td r _, applyUpdates_id r _, applyUpdates_created r _, rfl,
          Or.inr rfl, ?_, ?_⟩
        · intro f v hmem hmut hnotdue
          obtain ⟨_, _, _, hne_up, hne_ver⟩ := mutableField_ne f hmut
          rw [sqlHealBump_getField now d _ r f hnotdue hne_up hne_ver]
          exact applyUpdates_getField_mem r _ f v hAnd
            (List.mem_filter.mpr ⟨hmem, by simp [hmut]⟩) hmut
        · intro f hmut hnot hnotdue
          obtain ⟨_, _, _, hne_up, hne_ver⟩ := mutableField_ne f hmut
          rw [sqlHealBump_getField now d _ r f hnotdue hne_up hne_ver]
          apply applyUpdates_getField_notmem
          intro hc
          obtain ⟨fv, hfv, hfst⟩ := List.mem_map.mp hc
          exact hnot (List.mem_map.mpr ⟨fv, (List.mem_filter.mp hfv).1, hfst⟩)
    · rw [hun r hmatch]
      exact ⟨fun _ => rfl, fun _ hc => absurd hc hmatch⟩

/-- C3 (witness): the amended update semantics evaluated on the
duplicate store with a status update. -/
theorem C3_update_semantics_witness :
    ((update_record dupDb "t1" "TD001" [(Field.status, "Released")]).1 = true ↔
      ([(Field.status, "Released")].filter fun fv => !immutableField fv.1) ≠ [] ∧
        ∃ r ∈ dupDb.rows, r.td_number = "TD001") ∧
    List.Forall₂
      (fun r r' =>
        (r.td_number ≠ "TD001" → r' = r) ∧
        ((update_record dupDb "t1" "TD001" [(Field.status, "Released")]).1 = true →
          r.td_number = "TD001" →
          r'.td_number = r.td_number ∧ r'.id = r.id ∧ r'.created_at = r.created_at ∧
          r'.updated_at = "t1" ∧
          (r'.version = r.version + 1 ∨ r'.version = r.version + 2) ∧
          (∀ f v, (f, v) ∈ [(Field.status, "Released")] → immutableField f = false →
            f ≠ Field.due_date → r'.getField f = v) ∧
          (∀ f, immutableField f = false → f ∉ [(Field.status, "Released")].map Prod.fst →
            f ≠ Field.due_date → r'.getField f = r.getField f)))
      dupDb.rows (update_record dupDb "t1" "TD001" [(Field.status, "Released")]).2.rows :=
  C3_update_semantics dupDb "t1" "TD001" [(Field.status, "Released")] (by decide)

end PSURStore
